import Mathlib

/-!
PCA9685 PWM driver (ROV_Controller)

A shallow embedding of `1_2_control_underwater_thrusters/stm_program/Src/pca9685.c`.

* The STM32 HAL (`HAL_I2C_Mem_Write`, `HAL_I2C_Mem_Read`, `HAL_I2C_IsDeviceReady`,
  `HAL_Delay`) is the external transport.  It is modelled by a scripted bus: the
  handle carries the status that the n-th transport call will return and the byte
  that a read will deliver, and it records every call in a trace.
* Machine integers are natural numbers with an explicit `% 2 ^ w` wherever the
  source stores into a `uint8_t` / `uint16_t`.
* A `float` is a rational number and every `float` operation rounds its exact
  result to binary32 (`f32`: round to nearest, ties to even).  A conversion to an
  unsigned integer type truncates toward zero; where the value is out of range
  and C leaves the result undefined, the result is a parameter of the model.
-/

namespace StmProgram

/-! ## Data model -/

/-- Return codes of the STM32 HAL (`HAL_StatusTypeDef`). -/
inductive HAL_StatusTypeDef where
  | HAL_OK
  | HAL_ERROR
  | HAL_BUSY
  | HAL_TIMEOUT
  deriving DecidableEq, Repr

open HAL_StatusTypeDef

/-- One call into the transport, with the arguments the driver passed.
`memWrite dev reg data` is `HAL_I2C_Mem_Write(hi2c, dev, reg, 1, data, |data|, 1)`,
`memRead dev reg size` is `HAL_I2C_Mem_Read(hi2c, dev, reg, 1, buf, size, 1)`,
`isDeviceReady dev trials timeout` is `HAL_I2C_IsDeviceReady`, and `delay ms` is
`HAL_Delay(ms)`. -/
inductive Event where
  | isDeviceReady (dev trials timeout : Nat)
  | memRead (dev reg size : Nat)
  | memWrite (dev reg : Nat) (data : List Nat)
  | delay (ms : Nat)
  deriving DecidableEq, Repr

/-- The parameters of the model.  First the macros of this variant's
`pca9685.h`: that header is not among the sources, so every macro the driver uses
is a parameter.  Then `outOfRangeConv w x`, the value that the conversion of the
float `x` to an unsigned integer of `w` bits yields when `x` is out of range: C
leaves that conversion undefined, so its result is whatever the platform gives. -/
structure Config where
  PCA9685_ADDRESS : Nat
  PCA9685_REG_MODE1_ADDR : Nat
  PCA9685_REG_PRESCALE_ADDR : Nat
  PCA9685_REG_LED0_ON_L : Nat
  PCA9685_MODE1_RESTART : Nat
  PCA9685_MODE1_SLEEP : Nat
  PCA9685_MODE1_AI : Nat
  PCA9685_INTERNAL_FREQ : Nat
  PCA9685_PRESCALE_MIN : Nat
  PCA9685_PRESCALE_MAX : Nat
  SERVO_PULSE_MIN : Nat
  SERVO_PULSE_NEUTRAL : Nat
  SERVO_PULSE_MAX : Nat
  outOfRangeConv : Nat → ℚ → Nat

/-- The bus handle together with the scripted behaviour of the bus.
`status n` is the status the `n`-th transport call returns (counting from 0,
`HAL_Delay` is not counted), `rx n` the byte the device delivers if that call is a
read, `calls` the number of transport calls made so far and `trace` every call
made so far, oldest first. -/
structure I2C_HandleTypeDef where
  status : Nat → HAL_StatusTypeDef
  rx : Nat → Nat
  calls : Nat
  trace : List Event

/-! ## Transport -/

/-- Transport call `HAL_I2C_Mem_Write(hi2c, dev, reg, 1, data, |data|, 1)`. -/
def HAL_I2C_Mem_Write (hi2c : I2C_HandleTypeDef) (dev reg : Nat) (data : List Nat) :
    HAL_StatusTypeDef × I2C_HandleTypeDef :=
  (hi2c.status hi2c.calls,
    { hi2c with calls := hi2c.calls + 1, trace := hi2c.trace ++ [Event.memWrite dev reg data] })

/-- Transport call `HAL_I2C_Mem_Read(hi2c, dev, reg, 1, &byte, 1, 1)`: the status,
the byte stored into the `uint8_t` buffer, and the handle afterwards. -/
def HAL_I2C_Mem_Read (hi2c : I2C_HandleTypeDef) (dev reg : Nat) :
    HAL_StatusTypeDef × Nat × I2C_HandleTypeDef :=
  (hi2c.status hi2c.calls, hi2c.rx hi2c.calls % 256,
    { hi2c with calls := hi2c.calls + 1, trace := hi2c.trace ++ [Event.memRead dev reg 1] })

/-- Transport call `HAL_I2C_IsDeviceReady(hi2c, dev, trials, timeout)`. -/
def HAL_I2C_IsDeviceReady (hi2c : I2C_HandleTypeDef) (dev trials timeout : Nat) :
    HAL_StatusTypeDef × I2C_HandleTypeDef :=
  (hi2c.status hi2c.calls,
    { hi2c with calls := hi2c.calls + 1,
                trace := hi2c.trace ++ [Event.isDeviceReady dev trials timeout] })

/-- Blocking delay `HAL_Delay(ms)`. -/
def HAL_Delay (hi2c : I2C_HandleTypeDef) (ms : Nat) : I2C_HandleTypeDef :=
  { hi2c with trace := hi2c.trace ++ [Event.delay ms] }

/-! ## C arithmetic -/

/-- Bit pattern of `~x` for a 32-bit `int` operand. -/
def cNot32 (x : Nat) : Nat := 2 ^ 32 - 1 - x % 2 ^ 32

/-- Truncation toward zero, the rounding of a C float-to-integer conversion. -/
def ftrunc (x : ℚ) : ℤ := if 0 ≤ x then ⌊x⌋ else ⌈x⌉

/-- Conversion of a float to an unsigned integer of `w` bits.  When the truncated
value fits the type it is the result.  Otherwise the C result is undefined and
the model takes the low `w` bits of what `conv` gives for this width and value. -/
def floatToUInt (conv : Nat → ℚ → Nat) (w : Nat) (x : ℚ) : Nat :=
  if 0 ≤ ftrunc x ∧ ftrunc x < 2 ^ w then (ftrunc x).toNat else conv w x % 2 ^ w

/-- Rounding of a rational to the nearest integer, ties to the even one. -/
def roundEven (y : ℚ) : ℤ :=
  if y - ⌊y⌋ < 1 / 2 then ⌊y⌋
  else if 1 / 2 < y - ⌊y⌋ then ⌊y⌋ + 1
  else if ⌊y⌋ % 2 = 0 then ⌊y⌋ else ⌊y⌋ + 1

/-- The exponent of the binary32 unit in the last place at `x`: 24 significant
bits for a normal number, the fixed exponent `-149` below `2 ^ (-126)`. -/
def ulpExp (x : ℚ) : ℤ := max (Int.log 2 |x|) (-126) - 23

/-- Rounding of a rational to binary32: round to nearest, ties to even, with the
subnormal range.  There is no infinity: a value beyond the largest finite float
is rounded on the same grid as the values below it. -/
def f32 (x : ℚ) : ℚ := (roundEven (x / (2 : ℚ) ^ ulpExp x) : ℚ) * (2 : ℚ) ^ ulpExp x

/-! ## Driver -/

/-- Function `PCA9685_Reset` (lines 5-17). -/
def PCA9685_Reset (cfg : Config) (hi2c : I2C_HandleTypeDef) :
    HAL_StatusTypeDef × I2C_HandleTypeDef :=
  let restart := cfg.PCA9685_MODE1_RESTART % 256
  let r := HAL_I2C_Mem_Write hi2c cfg.PCA9685_ADDRESS cfg.PCA9685_REG_MODE1_ADDR [restart]
  if r.1 ≠ HAL_OK then
    (HAL_ERROR, r.2)
  else
    (HAL_OK, HAL_Delay r.2 10)

/-- Function `PCA9685_Init` (lines 22-35). -/
def PCA9685_Init (cfg : Config) (hi2c : I2C_HandleTypeDef) :
    HAL_StatusTypeDef × I2C_HandleTypeDef :=
  let p := HAL_I2C_IsDeviceReady hi2c cfg.PCA9685_ADDRESS 1000 1
  if p.1 ≠ HAL_OK then
    (HAL_ERROR, p.2)
  else
    let r := PCA9685_Reset cfg p.2
    if r.1 ≠ HAL_OK then
      (HAL_ERROR, r.2)
    else
      (HAL_OK, r.2)

/-- The quotient `PCA9685_INTERNAL_FREQ / (Frequency * 4096.0f)` of line 51, after
the input clamp of lines 45-48: the macro converted to `float`, the product and
the quotient each rounded to binary32. -/
def prescaleQuot (cfg : Config) (Frequency : ℚ) : ℚ :=
  let Frequency := if Frequency < 1 then 1 else Frequency
  let Frequency := if Frequency > 3500 then 3500 else Frequency
  f32 (f32 (cfg.PCA9685_INTERNAL_FREQ : ℚ) / f32 (Frequency * 4096))

/-- The initial value of the local `prescaleval` of `PCA9685_Set_PWM_Freq`
(line 51): the quotient minus 1, rounded to binary32. -/
def prescaleval (cfg : Config) (Frequency : ℚ) : ℚ :=
  f32 (prescaleQuot cfg Frequency - 1)

/-- The local `prescale` of `PCA9685_Set_PWM_Freq` (lines 45-56): the input clamp,
the prescale formula, the clamp of `prescaleval` against the two macros converted
to `float`, and the cast to `uint8_t`. -/
def prescale (cfg : Config) (Frequency : ℚ) : Nat :=
  let prescaleval : ℚ := prescaleval cfg Frequency
  let prescaleval : ℚ :=
    if prescaleval < f32 (cfg.PCA9685_PRESCALE_MIN : ℚ) then f32 (cfg.PCA9685_PRESCALE_MIN : ℚ)
    else prescaleval
  let prescaleval : ℚ :=
    if prescaleval > f32 (cfg.PCA9685_PRESCALE_MAX : ℚ) then f32 (cfg.PCA9685_PRESCALE_MAX : ℚ)
    else prescaleval
  floatToUInt cfg.outOfRangeConv 8 prescaleval

/-- Function `PCA9685_Set_PWM_Freq` (lines 43-91). -/
def PCA9685_Set_PWM_Freq (cfg : Config) (hi2c : I2C_HandleTypeDef) (Frequency : ℚ) :
    HAL_StatusTypeDef × I2C_HandleTypeDef :=
  let prescale := prescale cfg Frequency
  let rd := HAL_I2C_Mem_Read hi2c cfg.PCA9685_ADDRESS cfg.PCA9685_REG_MODE1_ADDR
  if rd.1 ≠ HAL_OK then
    (HAL_ERROR, rd.2.2)
  else
    let oldmode := rd.2.1
    let newmode := ((oldmode &&& cNot32 cfg.PCA9685_MODE1_RESTART) ||| cfg.PCA9685_MODE1_SLEEP) % 256
    let w1 := HAL_I2C_Mem_Write rd.2.2 cfg.PCA9685_ADDRESS cfg.PCA9685_REG_MODE1_ADDR [newmode]
    if w1.1 ≠ HAL_OK then
      (HAL_ERROR, w1.2)
    else
      let w2 := HAL_I2C_Mem_Write w1.2 cfg.PCA9685_ADDRESS cfg.PCA9685_REG_PRESCALE_ADDR [prescale]
      if w2.1 ≠ HAL_OK then
        (HAL_ERROR, w2.2)
      else
        let w3 := HAL_I2C_Mem_Write w2.2 cfg.PCA9685_ADDRESS cfg.PCA9685_REG_MODE1_ADDR [oldmode]
        if w3.1 ≠ HAL_OK then
          (HAL_ERROR, w3.2)
        else
          let d := HAL_Delay w3.2 5
          let oldmode := (oldmode ||| cfg.PCA9685_MODE1_RESTART ||| cfg.PCA9685_MODE1_AI) % 256
          let w4 := HAL_I2C_Mem_Write d cfg.PCA9685_ADDRESS cfg.PCA9685_REG_MODE1_ADDR [oldmode]
          if w4.1 ≠ HAL_OK then
            (HAL_ERROR, w4.2)
          else
            (HAL_OK, w4.2)

/-- Function `PCA9685_Set_PWM` (lines 99-133).  `Channel` is a `uint8_t`, `On` and
`Off` are `uint16_t`. -/
def PCA9685_Set_PWM (cfg : Config) (hi2c : I2C_HandleTypeDef) (Channel On Off : Nat) :
    HAL_StatusTypeDef × I2C_HandleTypeDef :=
  let On := if On > 4095 then 4095 else On
  let Off := if Off > 4095 then 4095 else Off
  let reg_on_low := (cfg.PCA9685_REG_LED0_ON_L + Channel * 4) % 256
  let reg_on_high := (reg_on_low + 1) % 256
  let reg_off_low := (reg_on_high + 1) % 256
  let reg_off_high := (reg_off_low + 1) % 256
  let on_low := (On &&& 0xFF) % 256
  let on_high := ((On >>> 8) &&& 0xFF) % 256
  let off_low := (Off &&& 0xFF) % 256
  let off_high := ((Off >>> 8) &&& 0xFF) % 256
  let w1 := HAL_I2C_Mem_Write hi2c cfg.PCA9685_ADDRESS reg_on_low [on_low]
  if w1.1 ≠ HAL_OK then
    (HAL_ERROR, w1.2)
  else
    let w2 := HAL_I2C_Mem_Write w1.2 cfg.PCA9685_ADDRESS reg_on_high [on_high]
    if w2.1 ≠ HAL_OK then
      (HAL_ERROR, w2.2)
    else
      let w3 := HAL_I2C_Mem_Write w2.2 cfg.PCA9685_ADDRESS reg_off_low [off_low]
      if w3.1 ≠ HAL_OK then
        (HAL_ERROR, w3.2)
      else
        let w4 := HAL_I2C_Mem_Write w3.2 cfg.PCA9685_ADDRESS reg_off_high [off_high]
        if w4.1 ≠ HAL_OK then
          (HAL_ERROR, w4.2)
        else
          (HAL_OK, w4.2)

/-- The float expression of line 147 for a throttle already clamped:
`SERVO_PULSE_NEUTRAL + Throttle*(SERVO_PULSE_MAX - SERVO_PULSE_MIN)/200.0f`.  The
product is an `int`; it and the macro are converted to `float`, and the quotient
and the sum are each rounded to binary32. -/
def pulseval (cfg : Config) (Throttle : ℤ) : ℚ :=
  f32 (f32 (cfg.SERVO_PULSE_NEUTRAL : ℚ)
    + f32 (f32 ((Throttle * ((cfg.SERVO_PULSE_MAX : ℤ) - (cfg.SERVO_PULSE_MIN : ℤ)) : ℤ) : ℚ)
        / 200))

/-- The local `pulselen` of `Servo_Set_Throttle` (lines 142-151): the throttle
clamp, the linear map evaluated in float and stored into a `uint16_t`, and the
clamp of the pulse length.  `Throttle` is an `int8_t`. -/
def pulselen (cfg : Config) (Throttle : ℤ) : Nat :=
  let Throttle := if Throttle < -100 then -100 else Throttle
  let Throttle := if Throttle > 100 then 100 else Throttle
  let pulselen := floatToUInt cfg.outOfRangeConv 16 (pulseval cfg Throttle)
  let pulselen := if pulselen < cfg.SERVO_PULSE_MIN then cfg.SERVO_PULSE_MIN % 2 ^ 16 else pulselen
  let pulselen := if pulselen > cfg.SERVO_PULSE_MAX then cfg.SERVO_PULSE_MAX % 2 ^ 16 else pulselen
  pulselen

/-- Function `Servo_Set_Throttle` (lines 140-159). -/
def Servo_Set_Throttle (cfg : Config) (hi2c : I2C_HandleTypeDef) (Channel : Nat)
    (Throttle : ℤ) : HAL_StatusTypeDef × I2C_HandleTypeDef :=
  let pulselen := pulselen cfg Throttle
  let r := PCA9685_Set_PWM cfg hi2c Channel 0 pulselen
  if r.1 ≠ HAL_OK then
    (HAL_ERROR, r.2)
  else
    (HAL_OK, r.2)

/-! ## Observing a trace -/

/-- The data of every write in a trace that addresses register `reg`, oldest
first. -/
def writesTo (reg : Nat) : List Event → List (List Nat)
  | [] => []
  | Event.memWrite _ r data :: es =>
      if r = reg then data :: writesTo reg es else writesTo reg es
  | _ :: es => writesTo reg es

/-! ## The specification's prescale formula -/

/-- The prescale formula in the words of the specification (section 4.1, step 2):
`round(internalOscillatorFreq / (frequency * 4096)) - 1` for the frequency
clamped to `[1, 3500]`, then clamped to the prescaler bounds.  It is stated only
to be compared with `prescale`. -/
def prescaleRounded (cfg : Config) (Frequency : ℚ) : ℤ :=
  max (cfg.PCA9685_PRESCALE_MIN : ℤ) (min (cfg.PCA9685_PRESCALE_MAX : ℤ)
    (round ((cfg.PCA9685_INTERNAL_FREQ : ℚ) / (max 1 (min Frequency 3500) * 4096)) - 1))

/-! ## A register file as test double of the device -/

/-- Store the bytes `data` into consecutive registers starting at `reg`, the
effect of one memory write on a device with register auto-increment. -/
def storeBytes (rf : Nat → Nat) (reg : Nat) : List Nat → Nat → Nat
  | [] => rf
  | b :: bs => storeBytes (Function.update rf reg b) (reg + 1) bs

/-- The register file after the writes of a trace have been applied to `rf`,
oldest first.  Reads, probes and delays leave the registers as they are. -/
def replay (rf : Nat → Nat) : List Event → Nat → Nat
  | [] => rf
  | Event.memWrite _ reg data :: es => replay (storeBytes rf reg data) es
  | _ :: es => replay rf es

/-- Every register address that the writes of a trace store into, oldest first. -/
def regsOf : List Event → List Nat
  | [] => []
  | Event.memWrite _ reg data :: es => (List.range data.length).map (reg + ·) ++ regsOf es
  | _ :: es => regsOf es

/-- The prescale byte computed with exact rational arithmetic: the truncation
toward zero of `INTERNAL_FREQ / (f * 4096) - 1`, for the frequency clamped to
`[1, 3500]`, after the clamp to the prescaler bounds.  It is stated only to be
compared with `prescale`. -/
def prescaleExact (cfg : Config) (Frequency : ℚ) : ℤ :=
  ftrunc (max (cfg.PCA9685_PRESCALE_MIN : ℚ) (min (cfg.PCA9685_PRESCALE_MAX : ℚ)
    ((cfg.PCA9685_INTERNAL_FREQ : ℚ) / (max 1 (min Frequency 3500) * 4096) - 1)))

/-! ## Concrete instances used to evaluate the model -/

/-- An out-of-range conversion that saturates: 0 for a negative value, the
largest value of the type otherwise. -/
def saturateConv (w : Nat) (x : ℚ) : Nat := if x < 0 then 0 else 2 ^ w - 1

/-- An out-of-range conversion that wraps: the truncated value modulo `2 ^ w`, as
a conversion through a wider signed integer gives. -/
def wrapConv (w : Nat) (x : ℚ) : Nat := (ftrunc x % 2 ^ w).toNat

/-- Header constants with the PCA9685 data-sheet values (device address `0x80`,
`MODE1` at `0x00`, `PRE_SCALE` at `0xFE`, `LED0_ON_L` at `0x06`, 25 MHz
oscillator, prescale range 3..255), the 1 ms / 1.5 ms / 2 ms servo pulses of a
50 Hz frame in ticks, and a saturating out-of-range conversion. -/
def sampleConfig : Config where
  PCA9685_ADDRESS := 0x80
  PCA9685_REG_MODE1_ADDR := 0x00
  PCA9685_REG_PRESCALE_ADDR := 0xFE
  PCA9685_REG_LED0_ON_L := 0x06
  PCA9685_MODE1_RESTART := 0x80
  PCA9685_MODE1_SLEEP := 0x10
  PCA9685_MODE1_AI := 0x20
  PCA9685_INTERNAL_FREQ := 25000000
  PCA9685_PRESCALE_MIN := 3
  PCA9685_PRESCALE_MAX := 255
  SERVO_PULSE_MIN := 205
  SERVO_PULSE_NEUTRAL := 307
  SERVO_PULSE_MAX := 410
  outOfRangeConv := saturateConv

/-- The constants of `sampleConfig` with servo pulses 10 / 20 / 4000, whose
neutral pulse lies far below the midpoint, and a wrapping out-of-range
conversion. -/
def wrapConfig : Config :=
  { sampleConfig with
    SERVO_PULSE_MIN := 10
    SERVO_PULSE_NEUTRAL := 20
    SERVO_PULSE_MAX := 4000
    outOfRangeConv := wrapConv }

/-- A fresh bus on which every transport call succeeds and a read delivers `rx`. -/
def okBus (rx : Nat) : I2C_HandleTypeDef where
  status := fun _ => HAL_OK
  rx := fun _ => rx
  calls := 0
  trace := []

/-- A fresh bus on which the transport call number `k` (from 0) fails with
`HAL_ERROR` and every other call succeeds; a read delivers `rx`. -/
def failAt (k rx : Nat) : I2C_HandleTypeDef where
  status := fun n => if n = k then HAL_ERROR else HAL_OK
  rx := fun _ => rx
  calls := 0
  trace := []

end StmProgram

/-!
The `stm32f303` variant

A shallow embedding of `stm32f303/pca9685/Src/pca9685.c`.  Both functions are
`void` and discard the status of every HAL call, so the bus handle only records
the calls.
-/

namespace Stm32f303

/-- One call of the variant into the HAL.  `masterTransmit dev data` is
`HAL_I2C_Master_Transmit(hi2c, dev, data, |data|, 1)` with a buffer of the driver;
`masterTransmitAt dev ptr size` is the same call with the integer `ptr` passed as
the buffer pointer, whose bytes the driver does not determine; `delay ms` is
`HAL_Delay(ms)`. -/
inductive Event where
  | masterTransmit (dev : Nat) (data : List Nat)
  | masterTransmitAt (dev ptr size : Nat)
  | delay (ms : Nat)
  deriving DecidableEq, Repr

/-- The macros `PCA9685_MODE1` and `PCA9685_PRESCALE` used by `PCA9685_Init`.  The
header under `stm32f303/pca9685/Inc` defines the register addresses under the
names `PCA9685_REG_MODE1` and `PCA9685_REG_PRESCALE` only, so the two macros are
parameters of the model. -/
structure Config where
  PCA9685_MODE1 : Nat
  PCA9685_PRESCALE : Nat

/-- The bus handle: every HAL call made so far, oldest first. -/
structure I2C_HandleTypeDef where
  trace : List Event
  deriving DecidableEq, Repr

/-- Transport call `HAL_I2C_Master_Transmit(hi2c, dev, data, |data|, 1)`; the
driver ignores the returned status. -/
def HAL_I2C_Master_Transmit (hi2c : I2C_HandleTypeDef) (dev : Nat) (data : List Nat) :
    I2C_HandleTypeDef :=
  { trace := hi2c.trace ++ [Event.masterTransmit dev data] }

/-- Transport call `HAL_I2C_Master_Transmit(hi2c, dev, ptr, size, 1)` where `ptr`
is an integer constant used as the buffer pointer. -/
def HAL_I2C_Master_Transmit_at (hi2c : I2C_HandleTypeDef) (dev ptr size : Nat) :
    I2C_HandleTypeDef :=
  { trace := hi2c.trace ++ [Event.masterTransmitAt dev ptr size] }

/-- Blocking delay `HAL_Delay(ms)`. -/
def HAL_Delay (hi2c : I2C_HandleTypeDef) (ms : Nat) : I2C_HandleTypeDef :=
  { trace := hi2c.trace ++ [Event.delay ms] }

/-- Function `PCA9685_Init` of the variant (lines 3-28).  `address` is a
`uint8_t`; `initStruct` is the two-byte buffer, its element 0 is written once. -/
def PCA9685_Init (cfg : Config) (hi2c : I2C_HandleTypeDef) (address : Nat) :
    I2C_HandleTypeDef :=
  let hi2c := HAL_I2C_Master_Transmit_at hi2c address cfg.PCA9685_MODE1 1
  let oldmode := 0
  let newmode := ((oldmode &&& 0x7F) ||| 0x10) % 256
  let initStruct0 := cfg.PCA9685_MODE1 % 256
  let initStruct1 := newmode
  let hi2c := HAL_I2C_Master_Transmit hi2c address [initStruct0, initStruct1]
  let initStruct1 := cfg.PCA9685_PRESCALE % 256
  let hi2c := HAL_I2C_Master_Transmit hi2c address [initStruct0, initStruct1]
  let initStruct1 := oldmode
  let hi2c := HAL_I2C_Master_Transmit hi2c address [initStruct0, initStruct1]
  let hi2c := HAL_Delay hi2c 5
  let initStruct1 := (oldmode ||| 0xA1) % 256
  HAL_I2C_Master_Transmit hi2c address [initStruct0, initStruct1]

/-- Function `PCA9685_PWM` of the variant (lines 30-34).  `num` is a `uint8_t`;
`on_` and `off_` are the `uint16_t` parameters `on` and `off`; each initialiser
is stored into a `uint8_t`. -/
def PCA9685_PWM (hi2c : I2C_HandleTypeDef) (address num on_ off_ : Nat) :
    I2C_HandleTypeDef :=
  let outputBuffer :=
    [(0x06 + 4 * num) % 256, on_ % 256, (on_ >>> 8) % 256, off_ % 256, (off_ >>> 8) % 256]
  HAL_I2C_Master_Transmit hi2c address outputBuffer

/-- The register file after the transfers of a trace have been applied to `rf`
on a device with register auto-increment: the first byte of a buffer is the
register address, the bytes after it go to consecutive registers. -/
def replay (rf : Nat → Nat) : List Event → Nat → Nat
  | [] => rf
  | Event.masterTransmit _ (reg :: data) :: es => replay (StmProgram.storeBytes rf reg data) es
  | _ :: es => replay rf es

/-- The register addresses of the variant's header: `PCA9685_REG_MODE1 = 0x00`
and `PCA9685_REG_PRESCALE = 0xFE`. -/
def headerConfig : Config where
  PCA9685_MODE1 := 0x00
  PCA9685_PRESCALE := 0xFE

end Stm32f303

namespace StmProgram

open HAL_StatusTypeDef

/-! ## Channel write -/

/-- Masking with `0xFF` already yields a byte. -/
theorem and255_lt (n : Nat) : (n &&& 0xFF) % 256 = n &&& 0xFF := by
  apply Nat.mod_eq_of_lt
  exact lt_of_le_of_lt Nat.and_le_right (by norm_num)

/-- The high byte of a 12-bit count needs no mask. -/
theorem shr8_byte (n : Nat) (h : n ≤ 4095) : ((n >>> 8) &&& 0xFF) % 256 = n >>> 8 := by
  have h1 : n >>> 8 < 16 := by
    rw [Nat.shiftRight_eq_div_pow]; omega
  have h2 : (n >>> 8) &&& 0xFF = n >>> 8 := by
    have : (0xFF : Nat) = 2 ^ 8 - 1 := by norm_num
    rw [this, Nat.and_pow_two_sub_one_eq_mod]
    omega
  rw [h2]; omega

/-- The `if (x > 4095) x = 4095;` clamp is `min x 4095`. -/
theorem clamp4095 (n : Nat) : (if n > 4095 then 4095 else n) = min n 4095 := by
  split <;> omega

/-- With four successful writes `PCA9685_Set_PWM` performs all four of them; the
register addresses are reduced modulo 256, whatever the channel. -/
theorem Set_PWM_all_ok (cfg : Config) (hi2c : I2C_HandleTypeDef) (Channel On Off : Nat)
    (hok : ∀ i, i < 4 → hi2c.status (hi2c.calls + i) = HAL_OK) :
    PCA9685_Set_PWM cfg hi2c Channel On Off =
      (HAL_OK,
        { hi2c with
          calls := hi2c.calls + 4
          trace := hi2c.trace ++
            [ Event.memWrite cfg.PCA9685_ADDRESS
                ((cfg.PCA9685_REG_LED0_ON_L + 4 * Channel + 0) % 256) [min On 4095 &&& 0xFF],
              Event.memWrite cfg.PCA9685_ADDRESS
                ((cfg.PCA9685_REG_LED0_ON_L + 4 * Channel + 1) % 256) [min On 4095 >>> 8],
              Event.memWrite cfg.PCA9685_ADDRESS
                ((cfg.PCA9685_REG_LED0_ON_L + 4 * Channel + 2) % 256) [min Off 4095 &&& 0xFF],
              Event.memWrite cfg.PCA9685_ADDRESS
                ((cfg.PCA9685_REG_LED0_ON_L + 4 * Channel + 3) % 256) [min Off 4095 >>> 8] ] }) := by
  have h0 := hok 0 (by omega)
  have h1 := hok 1 (by omega)
  have h2 := hok 2 (by omega)
  have h3 := hok 3 (by omega)
  have r0 : (cfg.PCA9685_REG_LED0_ON_L + Channel * 4) % 256
      = (cfg.PCA9685_REG_LED0_ON_L + 4 * Channel + 0) % 256 := by omega
  have r1 : ((cfg.PCA9685_REG_LED0_ON_L + 4 * Channel + 0) % 256 + 1) % 256
      = (cfg.PCA9685_REG_LED0_ON_L + 4 * Channel + 1) % 256 := by omega
  have r2 : ((cfg.PCA9685_REG_LED0_ON_L + 4 * Channel + 1) % 256 + 1) % 256
      = (cfg.PCA9685_REG_LED0_ON_L + 4 * Channel + 2) % 256 := by omega
  have r3 : ((cfg.PCA9685_REG_LED0_ON_L + 4 * Channel + 2) % 256 + 1) % 256
      = (cfg.PCA9685_REG_LED0_ON_L + 4 * Channel + 3) % 256 := by omega
  simp only [Nat.add_zero] at h0
  simp only [PCA9685_Set_PWM, HAL_I2C_Mem_Write, clamp4095, r0, r1, r2, r3, and255_lt,
    shr8_byte _ (Nat.min_le_right _ _), h0, h1, h2, h3, List.append_assoc,
    ne_eq, not_true_eq_false, if_false, List.cons_append, List.nil_append]

/-- Claim C1. For a channel in 0..15 and any `On`, `Off`, when the four transport
writes succeed, `PCA9685_Set_PWM` returns `HAL_OK` after exactly four single-byte
writes, in this order, to the registers `LED0_ON_L + 4 * Channel + 0, 1, 2, 3`
with the values `on' &&& 0xFF`, `on' >>> 8`, `off' &&& 0xFF`, `off' >>> 8`, where
`on' = min On 4095` and `off' = min Off 4095`.  The register block of the sixteen
channels is assumed to lie in the 8-bit address space. -/
theorem PCA9685_Set_PWM_encoding (cfg : Config) (hi2c : I2C_HandleTypeDef)
    (Channel On Off : Nat) (hch : Channel ≤ 15)
    (hreg : cfg.PCA9685_REG_LED0_ON_L + 63 ≤ 255)
    (hok : ∀ i, i < 4 → hi2c.status (hi2c.calls + i) = HAL_OK) :
    PCA9685_Set_PWM cfg hi2c Channel On Off =
      (HAL_OK,
        { hi2c with
          calls := hi2c.calls + 4
          trace := hi2c.trace ++
            [ Event.memWrite cfg.PCA9685_ADDRESS (cfg.PCA9685_REG_LED0_ON_L + 4 * Channel + 0)
                [min On 4095 &&& 0xFF],
              Event.memWrite cfg.PCA9685_ADDRESS (cfg.PCA9685_REG_LED0_ON_L + 4 * Channel + 1)
                [min On 4095 >>> 8],
              Event.memWrite cfg.PCA9685_ADDRESS (cfg.PCA9685_REG_LED0_ON_L + 4 * Channel + 2)
                [min Off 4095 &&& 0xFF],
              Event.memWrite cfg.PCA9685_ADDRESS (cfg.PCA9685_REG_LED0_ON_L + 4 * Channel + 3)
                [min Off 4095 >>> 8] ] }) := by
  rw [Set_PWM_all_ok cfg hi2c Channel On Off hok]
  rw [Nat.mod_eq_of_lt (by omega : cfg.PCA9685_REG_LED0_ON_L + 4 * Channel + 0 < 256),
    Nat.mod_eq_of_lt (by omega : cfg.PCA9685_REG_LED0_ON_L + 4 * Channel + 1 < 256),
    Nat.mod_eq_of_lt (by omega : cfg.PCA9685_REG_LED0_ON_L + 4 * Channel + 2 < 256),
    Nat.mod_eq_of_lt (by omega : cfg.PCA9685_REG_LED0_ON_L + 4 * Channel + 3 < 256)]

/-- Witness for C1: channel 3, `On = 100`, `Off = 5000` (clamped to 4095 = `0x0FFF`). -/
theorem PCA9685_Set_PWM_encoding_witness :
    PCA9685_Set_PWM sampleConfig (okBus 0) 3 100 5000 =
      (HAL_OK,
        { okBus 0 with
          calls := 4
          trace :=
            [ Event.memWrite 0x80 18 [100], Event.memWrite 0x80 19 [0],
              Event.memWrite 0x80 20 [0xFF], Event.memWrite 0x80 21 [0x0F] ] }) :=
  PCA9685_Set_PWM_encoding sampleConfig (okBus 0) 3 100 5000 (by decide) (by decide)
    (fun _ _ => rfl)


/-! ## Frequency programming -/

/-- Bits of `~x` taken as a 32-bit pattern. -/
theorem testBit_cNot32 (x i : Nat) :
    (cNot32 x).testBit i = (decide (i < 32) && !(x % 2 ^ 32).testBit i) := by
  have hx : x % 2 ^ 32 < 2 ^ 32 := Nat.mod_lt _ (by norm_num)
  have e : cNot32 x = 2 ^ 32 - (x % 2 ^ 32 + 1) := by
    unfold cNot32; omega
  rw [e, Nat.testBit_two_pow_sub_succ hx]

/-- A byte has no bit at position 8 or above. -/
theorem testBit_byte_high (m i : Nat) (hm : m < 256) (hi : 8 ≤ i) : m.testBit i = false := by
  apply Nat.testBit_lt_two_pow
  calc m < 2 ^ 8 := by simpa using hm
    _ ≤ 2 ^ i := Nat.pow_le_pow_right (by norm_num) hi

/-- Bits of the sleep value `(oldmode & ~RESTART) | SLEEP` stored into a `uint8_t`. -/
theorem testBit_sleepMode (m R S i : Nat) :
    (((m &&& cNot32 R) ||| S) % 256).testBit i
      = (decide (i < 8) && ((m.testBit i && !R.testBit i) || S.testBit i)) := by
  have e : (256 : Nat) = 2 ^ 8 := by norm_num
  rw [e, Nat.testBit_mod_two_pow, Nat.testBit_lor, Nat.testBit_land, testBit_cNot32,
    Nat.testBit_mod_two_pow]
  by_cases h8 : i < 8
  · have h32 : i < 32 := by omega
    simp [h8, h32]
  · simp [h8]

/-- Bits of the final value `oldmode | RESTART | AI` stored into a `uint8_t`. -/
theorem testBit_restartMode (m R A i : Nat) :
    ((m ||| R ||| A) % 256).testBit i
      = (decide (i < 8) && (m.testBit i || R.testBit i || A.testBit i)) := by
  have e : (256 : Nat) = 2 ^ 8 := by norm_num
  rw [e, Nat.testBit_mod_two_pow, Nat.testBit_lor, Nat.testBit_lor]

/-- For byte-sized masks the sleep value is `oldmode` with the RESTART bits
cleared and the SLEEP bits set. -/
theorem sleepMode_eq (m R S : Nat) (hR : R < 256) (hS : S < 256) :
    ((m &&& cNot32 R) ||| S) % 256 = (m &&& (255 - R)) ||| S := by
  apply Nat.eq_of_testBit_eq
  intro i
  have e : 255 - R = 2 ^ 8 - (R + 1) := by omega
  rw [testBit_sleepMode m R S i, Nat.testBit_lor, Nat.testBit_land, e,
    Nat.testBit_two_pow_sub_succ (by simpa using hR)]
  by_cases h8 : i < 8
  · simp [h8]
  · have hS' := testBit_byte_high S i hS (by omega)
    simp [h8, hS']

/-- For byte-sized masks the final value needs no truncation. -/
theorem restartMode_eq (m R A : Nat) (hm : m < 256) (hR : R < 256) (hA : A < 256) :
    (m ||| R ||| A) % 256 = m ||| R ||| A := by
  apply Nat.mod_eq_of_lt
  have h1 : m ||| R < 2 ^ 8 := Nat.or_lt_two_pow (by simpa using hm) (by simpa using hR)
  have h2 : m ||| R ||| A < 2 ^ 8 := Nat.or_lt_two_pow h1 (by simpa using hA)
  simpa using h2

/-- Claim C2. When the five transport calls succeed and the `MODE1` read returns
the byte `oldMode`, `PCA9685_Set_PWM_Freq` returns `HAL_OK` and its trace is
exactly: read `MODE1`; write `MODE1 := (oldMode & ~RESTART) | SLEEP`; write
`PRESCALE := prescale`; write `MODE1 := oldMode`; delay 5 ms; write
`MODE1 := oldMode | RESTART | AI`.  The three mode masks are bytes. -/
theorem PCA9685_Set_PWM_Freq_trace (cfg : Config) (hi2c : I2C_HandleTypeDef)
    (Frequency : ℚ) (oldMode : Nat)
    (hR : cfg.PCA9685_MODE1_RESTART < 256) (hS : cfg.PCA9685_MODE1_SLEEP < 256)
    (hA : cfg.PCA9685_MODE1_AI < 256)
    (hold : oldMode < 256) (hrx : hi2c.rx hi2c.calls = oldMode)
    (hok : ∀ i, i < 5 → hi2c.status (hi2c.calls + i) = HAL_OK) :
    PCA9685_Set_PWM_Freq cfg hi2c Frequency =
      (HAL_OK,
        { hi2c with
          calls := hi2c.calls + 5
          trace := hi2c.trace ++
            [ Event.memRead cfg.PCA9685_ADDRESS cfg.PCA9685_REG_MODE1_ADDR 1,
              Event.memWrite cfg.PCA9685_ADDRESS cfg.PCA9685_REG_MODE1_ADDR
                [(oldMode &&& (255 - cfg.PCA9685_MODE1_RESTART)) ||| cfg.PCA9685_MODE1_SLEEP],
              Event.memWrite cfg.PCA9685_ADDRESS cfg.PCA9685_REG_PRESCALE_ADDR
                [prescale cfg Frequency],
              Event.memWrite cfg.PCA9685_ADDRESS cfg.PCA9685_REG_MODE1_ADDR [oldMode],
              Event.delay 5,
              Event.memWrite cfg.PCA9685_ADDRESS cfg.PCA9685_REG_MODE1_ADDR
                [oldMode ||| cfg.PCA9685_MODE1_RESTART ||| cfg.PCA9685_MODE1_AI] ] }) := by
  have h0 := hok 0 (by omega)
  have h1 := hok 1 (by omega)
  have h2 := hok 2 (by omega)
  have h3 := hok 3 (by omega)
  have h4 := hok 4 (by omega)
  have hm : oldMode % 256 = oldMode := Nat.mod_eq_of_lt hold
  simp only [Nat.add_zero] at h0
  simp only [PCA9685_Set_PWM_Freq, HAL_I2C_Mem_Write, HAL_I2C_Mem_Read, HAL_Delay, hrx, hm,
    sleepMode_eq oldMode _ _ hR hS, restartMode_eq oldMode _ _ hold hR hA,
    h0, h1, h2, h3, h4, List.append_assoc,
    ne_eq, not_true_eq_false, if_false, List.cons_append, List.nil_append]

/-- Witness for C2: `MODE1` reads `0x81`, so the sleep value is `0x11` and the
final value `0xA1`. -/
theorem PCA9685_Set_PWM_Freq_trace_witness :
    (PCA9685_Set_PWM_Freq sampleConfig (okBus 0x81) 50).1 = HAL_OK ∧
    (PCA9685_Set_PWM_Freq sampleConfig (okBus 0x81) 50).2.trace =
      [ Event.memRead 0x80 0x00 1,
        Event.memWrite 0x80 0x00 [0x11],
        Event.memWrite 0x80 0xFE [prescale sampleConfig 50],
        Event.memWrite 0x80 0x00 [0x81],
        Event.delay 5,
        Event.memWrite 0x80 0x00 [0xA1] ] := by
  have h := PCA9685_Set_PWM_Freq_trace sampleConfig (okBus 0x81) 50 0x81
    (by decide) (by decide) (by decide) (by decide) rfl (fun _ _ => rfl)
  rw [h]
  exact ⟨rfl, rfl⟩


/-- Either the first `n` transport calls all succeed or one of them is the first
to fail. -/
theorem first_failure_exists (hi2c : I2C_HandleTypeDef) (n : Nat)
    (h : ¬ ∀ i, i < n → hi2c.status (hi2c.calls + i) = HAL_OK) :
    ∃ j, j < n ∧ (∀ i, i < j → hi2c.status (hi2c.calls + i) = HAL_OK) ∧
      hi2c.status (hi2c.calls + j) ≠ HAL_OK := by
  classical
  have hex : ∃ j, j < n ∧ hi2c.status (hi2c.calls + j) ≠ HAL_OK := by
    by_contra hc
    apply h
    intro i hi
    by_contra hne
    exact hc ⟨i, hi, hne⟩
  obtain ⟨hj, hfail⟩ := Nat.find_spec hex
  refine ⟨Nat.find hex, hj, ?_, hfail⟩
  intro i hi'
  by_contra hc
  exact Nat.find_min hex hi' ⟨by omega, hc⟩

/-- A run in which every transport call succeeds. -/
theorem Set_PWM_Freq_all_ok (cfg : Config) (hi2c : I2C_HandleTypeDef) (Frequency : ℚ)
    (hok : ∀ i, i < 5 → hi2c.status (hi2c.calls + i) = HAL_OK) :
    PCA9685_Set_PWM_Freq cfg hi2c Frequency =
      (HAL_OK,
        { hi2c with
          calls := hi2c.calls + 5
          trace := hi2c.trace ++
            [ Event.memRead cfg.PCA9685_ADDRESS cfg.PCA9685_REG_MODE1_ADDR 1,
              Event.memWrite cfg.PCA9685_ADDRESS cfg.PCA9685_REG_MODE1_ADDR
                [((hi2c.rx hi2c.calls % 256 &&& cNot32 cfg.PCA9685_MODE1_RESTART)
                    ||| cfg.PCA9685_MODE1_SLEEP) % 256],
              Event.memWrite cfg.PCA9685_ADDRESS cfg.PCA9685_REG_PRESCALE_ADDR
                [prescale cfg Frequency],
              Event.memWrite cfg.PCA9685_ADDRESS cfg.PCA9685_REG_MODE1_ADDR
                [hi2c.rx hi2c.calls % 256],
              Event.delay 5,
              Event.memWrite cfg.PCA9685_ADDRESS cfg.PCA9685_REG_MODE1_ADDR
                [(hi2c.rx hi2c.calls % 256 ||| cfg.PCA9685_MODE1_RESTART
                    ||| cfg.PCA9685_MODE1_AI) % 256] ] }) := by
  have h0 := hok 0 (by omega)
  have h1 := hok 1 (by omega)
  have h2 := hok 2 (by omega)
  have h3 := hok 3 (by omega)
  have h4 := hok 4 (by omega)
  simp only [Nat.add_zero] at h0
  simp only [PCA9685_Set_PWM_Freq, HAL_I2C_Mem_Write, HAL_I2C_Mem_Read, HAL_Delay,
    h0, h1, h2, h3, h4, List.append_assoc,
    ne_eq, not_true_eq_false, if_false, List.cons_append, List.nil_append]

/-- A run in which transport call `j` (from 0) is the first that fails. -/
theorem Set_PWM_Freq_first_failure (cfg : Config) (hi2c : I2C_HandleTypeDef) (Frequency : ℚ)
    (j : Nat) (hj : j < 5)
    (hpre : ∀ i, i < j → hi2c.status (hi2c.calls + i) = HAL_OK)
    (hfail : hi2c.status (hi2c.calls + j) ≠ HAL_OK) :
    PCA9685_Set_PWM_Freq cfg hi2c Frequency =
      (HAL_ERROR,
        { hi2c with
          calls := hi2c.calls + (j + 1)
          trace := hi2c.trace ++ List.take (if j = 4 then 6 else j + 1)
            [ Event.memRead cfg.PCA9685_ADDRESS cfg.PCA9685_REG_MODE1_ADDR 1,
              Event.memWrite cfg.PCA9685_ADDRESS cfg.PCA9685_REG_MODE1_ADDR
                [((hi2c.rx hi2c.calls % 256 &&& cNot32 cfg.PCA9685_MODE1_RESTART)
                    ||| cfg.PCA9685_MODE1_SLEEP) % 256],
              Event.memWrite cfg.PCA9685_ADDRESS cfg.PCA9685_REG_PRESCALE_ADDR
                [prescale cfg Frequency],
              Event.memWrite cfg.PCA9685_ADDRESS cfg.PCA9685_REG_MODE1_ADDR
                [hi2c.rx hi2c.calls % 256],
              Event.delay 5,
              Event.memWrite cfg.PCA9685_ADDRESS cfg.PCA9685_REG_MODE1_ADDR
                [(hi2c.rx hi2c.calls % 256 ||| cfg.PCA9685_MODE1_RESTART
                    ||| cfg.PCA9685_MODE1_AI) % 256] ] }) := by
  interval_cases j
  · simp only [Nat.add_zero] at hfail
    simp [PCA9685_Set_PWM_Freq, HAL_I2C_Mem_Write, HAL_I2C_Mem_Read, HAL_Delay, hfail]
  · have h0 := hpre 0 (by omega)
    simp only [Nat.add_zero] at h0
    simp [PCA9685_Set_PWM_Freq, HAL_I2C_Mem_Write, HAL_I2C_Mem_Read, HAL_Delay, hfail, h0]
  · have h0 := hpre 0 (by omega)
    have h1 := hpre 1 (by omega)
    simp only [Nat.add_zero] at h0
    simp [PCA9685_Set_PWM_Freq, HAL_I2C_Mem_Write, HAL_I2C_Mem_Read, HAL_Delay, hfail, h0, h1]
  · have h0 := hpre 0 (by omega)
    have h1 := hpre 1 (by omega)
    have h2 := hpre 2 (by omega)
    simp only [Nat.add_zero] at h0
    simp [PCA9685_Set_PWM_Freq, HAL_I2C_Mem_Write, HAL_I2C_Mem_Read, HAL_Delay, hfail, h0, h1, h2]
  · have h0 := hpre 0 (by omega)
    have h1 := hpre 1 (by omega)
    have h2 := hpre 2 (by omega)
    have h3 := hpre 3 (by omega)
    simp only [Nat.add_zero] at h0
    simp [PCA9685_Set_PWM_Freq, HAL_I2C_Mem_Write, HAL_I2C_Mem_Read, HAL_Delay, hfail, h0, h1, h2, h3]


/-- Claim C3. If transport call `j` (0 the `MODE1` read, 1..4 the four writes) is
the first to fail, `PCA9685_Set_PWM_Freq` returns `HAL_ERROR` after `j + 1`
transport calls and its trace is the prefix of the all-success trace that ends
with the failing call; no delay occurs unless the first three writes succeeded.
The function returns `HAL_OK` iff all five calls succeed. -/
theorem PCA9685_Set_PWM_Freq_short_circuit (cfg : Config) (hi2c : I2C_HandleTypeDef)
    (Frequency : ℚ) :
    (∀ j, j < 5 →
      (∀ i, i < j → hi2c.status (hi2c.calls + i) = HAL_OK) →
      hi2c.status (hi2c.calls + j) ≠ HAL_OK →
        (PCA9685_Set_PWM_Freq cfg hi2c Frequency).1 = HAL_ERROR ∧
        (PCA9685_Set_PWM_Freq cfg hi2c Frequency).2.calls = hi2c.calls + (j + 1) ∧
        (PCA9685_Set_PWM_Freq cfg hi2c Frequency).2.trace =
          List.take (hi2c.trace.length + (if j = 4 then 6 else j + 1))
            (PCA9685_Set_PWM_Freq cfg { hi2c with status := fun _ => HAL_OK } Frequency).2.trace ∧
        (j < 4 → ∀ ms, Event.delay ms ∉
          List.drop hi2c.trace.length (PCA9685_Set_PWM_Freq cfg hi2c Frequency).2.trace)) ∧
    ((PCA9685_Set_PWM_Freq cfg hi2c Frequency).1 = HAL_OK ↔
      ∀ i, i < 5 → hi2c.status (hi2c.calls + i) = HAL_OK) := by
  constructor
  · intro j hj hpre hfail
    rw [Set_PWM_Freq_first_failure cfg hi2c Frequency j hj hpre hfail,
      Set_PWM_Freq_all_ok cfg { hi2c with status := fun _ => HAL_OK } Frequency (fun _ _ => rfl)]
    refine ⟨rfl, rfl, ?_, ?_⟩
    · simp only [List.take_append]
    · intro hj4 ms
      simp only [List.drop_left]
      interval_cases j <;> simp
  · constructor
    · intro hret
      by_contra hne
      obtain ⟨j, hj, hpre, hfail⟩ := first_failure_exists hi2c 5 hne
      rw [Set_PWM_Freq_first_failure cfg hi2c Frequency j hj hpre hfail] at hret
      exact HAL_StatusTypeDef.noConfusion hret
    · intro hok
      rw [Set_PWM_Freq_all_ok cfg hi2c Frequency hok]

/-- Witness for C3: the `PRESCALE` write (call 2) fails. -/
theorem PCA9685_Set_PWM_Freq_short_circuit_witness :
    (PCA9685_Set_PWM_Freq sampleConfig (failAt 2 0x81) 50).1 = HAL_ERROR ∧
    (PCA9685_Set_PWM_Freq sampleConfig (failAt 2 0x81) 50).2.calls = 3 ∧
    (PCA9685_Set_PWM_Freq sampleConfig (failAt 2 0x81) 50).2.trace =
      List.take 3
        (PCA9685_Set_PWM_Freq sampleConfig
          { failAt 2 0x81 with status := fun _ => HAL_OK } 50).2.trace ∧
    (2 < 4 → ∀ ms, Event.delay ms ∉
      List.drop 0 (PCA9685_Set_PWM_Freq sampleConfig (failAt 2 0x81) 50).2.trace) :=
  (PCA9685_Set_PWM_Freq_short_circuit sampleConfig (failAt 2 0x81) 50).1 2
    (by decide) (by decide) (by decide)


/-- Outside the SLEEP and RESTART masks the sleep value agrees with `oldmode`. -/
theorem sleepMode_preserves (m R S i : Nat) (hm : m < 256)
    (hR : R.testBit i = false) (hS : S.testBit i = false) :
    (((m &&& cNot32 R) ||| S) % 256).testBit i = m.testBit i := by
  rw [testBit_sleepMode, hR, hS]
  by_cases h8 : i < 8
  · simp [h8]
  · simp [h8, testBit_byte_high m i hm (by omega)]

/-- Outside the RESTART and AI masks the final value agrees with `oldmode`. -/
theorem restartMode_preserves (m R A i : Nat) (hm : m < 256)
    (hR : R.testBit i = false) (hA : A.testBit i = false) :
    ((m ||| R ||| A) % 256).testBit i = m.testBit i := by
  rw [testBit_restartMode, hR, hA]
  by_cases h8 : i < 8
  · simp [h8]
  · simp [h8, testBit_byte_high m i hm (by omega)]

/-- Claim C4. Let `oldMode` be the byte read from `MODE1`, and let the `MODE1`
and `PRESCALE` addresses differ.  Every write of `PCA9685_Set_PWM_Freq` to
`MODE1` is a single byte that agrees with `oldMode` on every bit outside the
SLEEP, RESTART and AI masks, so none is a literal independent of `oldMode`.  In a
successful run the `MODE1` writes are three, the second is exactly `oldMode`, and
the third is `oldMode` with the RESTART and AI bits set. -/
theorem PCA9685_Set_PWM_Freq_mode1_bits (cfg : Config) (hi2c : I2C_HandleTypeDef)
    (Frequency : ℚ) (oldMode : Nat)
    (hreg : cfg.PCA9685_REG_MODE1_ADDR ≠ cfg.PCA9685_REG_PRESCALE_ADDR)
    (hold : oldMode < 256) (hrx : hi2c.rx hi2c.calls = oldMode) :
    (∀ data, data ∈ writesTo cfg.PCA9685_REG_MODE1_ADDR
        (List.drop hi2c.trace.length (PCA9685_Set_PWM_Freq cfg hi2c Frequency).2.trace) →
      ∃ v, data = [v] ∧
        ∀ i, cfg.PCA9685_MODE1_SLEEP.testBit i = false →
          cfg.PCA9685_MODE1_RESTART.testBit i = false →
          cfg.PCA9685_MODE1_AI.testBit i = false →
          v.testBit i = oldMode.testBit i) ∧
    ((∀ i, i < 5 → hi2c.status (hi2c.calls + i) = HAL_OK) →
      ∃ v1 v3,
        writesTo cfg.PCA9685_REG_MODE1_ADDR
          (List.drop hi2c.trace.length (PCA9685_Set_PWM_Freq cfg hi2c Frequency).2.trace)
          = [[v1], [oldMode], [v3]] ∧
        ∀ i, i < 8 → v3.testBit i =
          (oldMode.testBit i || cfg.PCA9685_MODE1_RESTART.testBit i
            || cfg.PCA9685_MODE1_AI.testBit i)) := by
  have hm : hi2c.rx hi2c.calls % 256 = oldMode := by rw [hrx]; exact Nat.mod_eq_of_lt hold
  have hreg' : ¬ cfg.PCA9685_REG_PRESCALE_ADDR = cfg.PCA9685_REG_MODE1_ADDR := fun h => hreg h.symm
  have hall : ∀ (hok : ∀ i, i < 5 → hi2c.status (hi2c.calls + i) = HAL_OK),
      writesTo cfg.PCA9685_REG_MODE1_ADDR
          (List.drop hi2c.trace.length (PCA9685_Set_PWM_Freq cfg hi2c Frequency).2.trace)
        = [[((oldMode &&& cNot32 cfg.PCA9685_MODE1_RESTART) ||| cfg.PCA9685_MODE1_SLEEP) % 256],
            [oldMode],
            [(oldMode ||| cfg.PCA9685_MODE1_RESTART ||| cfg.PCA9685_MODE1_AI) % 256]] := by
    intro hok
    rw [Set_PWM_Freq_all_ok cfg hi2c Frequency hok]
    simp only [List.drop_left, writesTo, hm, hreg', if_true, if_false]
  constructor
  · intro data hdata
    have key : data = [((oldMode &&& cNot32 cfg.PCA9685_MODE1_RESTART)
          ||| cfg.PCA9685_MODE1_SLEEP) % 256] ∨ data = [oldMode] ∨
        data = [(oldMode ||| cfg.PCA9685_MODE1_RESTART ||| cfg.PCA9685_MODE1_AI) % 256] := by
      by_cases hok : ∀ i, i < 5 → hi2c.status (hi2c.calls + i) = HAL_OK
      · rw [hall hok] at hdata
        simpa using hdata
      · obtain ⟨j, hj, hpre, hfail⟩ := first_failure_exists hi2c 5 hok
        rw [Set_PWM_Freq_first_failure cfg hi2c Frequency j hj hpre hfail] at hdata
        simp only [List.drop_left] at hdata
        interval_cases j <;> simp [writesTo, hm, hreg'] at hdata <;> tauto
    rcases key with h | h | h
    · exact ⟨_, h, fun i hS hR _ => sleepMode_preserves oldMode _ _ i hold hR hS⟩
    · exact ⟨_, h, fun i _ _ _ => rfl⟩
    · exact ⟨_, h, fun i _ hR hA => restartMode_preserves oldMode _ _ i hold hR hA⟩
  · intro hok
    refine ⟨_, _, hall hok, ?_⟩
    intro i hi
    rw [testBit_restartMode]
    simp [hi]

/-- Witness for C4: `MODE1` reads `0x45`. -/
theorem PCA9685_Set_PWM_Freq_mode1_bits_witness :
    ∃ v1 v3,
      writesTo sampleConfig.PCA9685_REG_MODE1_ADDR
        (List.drop 0 (PCA9685_Set_PWM_Freq sampleConfig (okBus 0x45) 50).2.trace)
        = [[v1], [0x45], [v3]] ∧
      ∀ i, i < 8 → v3.testBit i =
        ((0x45).testBit i || sampleConfig.PCA9685_MODE1_RESTART.testBit i
          || sampleConfig.PCA9685_MODE1_AI.testBit i) :=
  (PCA9685_Set_PWM_Freq_mode1_bits sampleConfig (okBus 0x45) 50 0x45
    (by decide) (by decide) rfl).2 (fun _ _ => rfl)


/-! ## Binary32 rounding -/

/-- An integer rounds to itself. -/
theorem roundEven_intCast (n : ℤ) : roundEven (n : ℚ) = n := by
  unfold roundEven
  rw [Int.floor_intCast]
  simp

/-- Rounding to the nearest integer moves a value by at most one half. -/
theorem roundEven_err (y : ℚ) : |((roundEven y : ℤ) : ℚ) - y| ≤ 1 / 2 := by
  have h1 := Int.floor_le y
  have h2 := Int.lt_floor_add_one y
  unfold roundEven
  rw [abs_le]
  split_ifs with ha hb hc
  · constructor <;> linarith
  · push_cast
    constructor <;> linarith
  · constructor <;> linarith
  · push_cast
    constructor <;> linarith

/-- Rounding to the nearest integer does not pass an integer above the value. -/
theorem roundEven_le (y : ℚ) (N : ℤ) (h : y ≤ (N : ℚ)) : roundEven y ≤ N := by
  have h1 := Int.floor_le y
  have hf : ⌊y⌋ ≤ N := by
    have : ((⌊y⌋ : ℤ) : ℚ) ≤ (N : ℚ) := le_trans h1 h
    exact_mod_cast this
  have hstep : (⌊y⌋ : ℚ) < y → ⌊y⌋ + 1 ≤ N := by
    intro hlt
    have : ((⌊y⌋ : ℤ) : ℚ) < (N : ℚ) := lt_of_lt_of_le hlt h
    have : ⌊y⌋ < N := by exact_mod_cast this
    omega
  unfold roundEven
  split_ifs with ha hb hc
  · exact hf
  · exact hstep (by linarith)
  · exact hf
  · exact hstep (by linarith)

/-- Rounding to the nearest integer does not pass an integer below the value. -/
theorem roundEven_ge (y : ℚ) (N : ℤ) (h : (N : ℚ) ≤ y) : N ≤ roundEven y := by
  have hf : N ≤ ⌊y⌋ := Int.le_floor.mpr h
  unfold roundEven
  split_ifs <;> omega

/-- A value closer than one half to an integer rounds to that integer. -/
theorem roundEven_eq (y : ℚ) (n : ℤ) (h : |y - (n : ℚ)| < 1 / 2) : roundEven y = n := by
  have herr := roundEven_err y
  rw [abs_lt] at h
  rw [abs_le] at herr
  have h1 : ((roundEven y : ℤ) : ℚ) < (n : ℚ) + 1 := by linarith
  have h2 : (n : ℚ) - 1 < ((roundEven y : ℤ) : ℚ) := by linarith
  have h1' : roundEven y < n + 1 := by exact_mod_cast h1
  have h2' : n - 1 < roundEven y := by exact_mod_cast h2
  omega

/-- The unit in the last place at `x`, once the binade of `x` is known. -/
theorem ulpExp_eq (x : ℚ) (e : ℤ) (he : -126 ≤ e) (h1 : (2 : ℚ) ^ e ≤ |x|)
    (h2 : |x| < (2 : ℚ) ^ (e + 1)) : ulpExp x = e - 23 := by
  have hpos : 0 < |x| := lt_of_lt_of_le (zpow_pos (by norm_num) e) h1
  have hb : (1 : ℕ) < 2 := by norm_num
  have hl1 : e ≤ Int.log 2 |x| := by
    apply (Int.zpow_le_iff_le_log hb hpos).mp
    simpa using h1
  have hl2 : Int.log 2 |x| < e + 1 := by
    apply (Int.lt_zpow_iff_log_lt hb hpos).mp
    simpa using h2
  unfold ulpExp
  omega

/-- The unit in the last place is at least `2 ^ (-149)`. -/
theorem ulpExp_ge (x : ℚ) : -149 ≤ ulpExp x := by
  unfold ulpExp
  omega

/-- The unit in the last place of a non-zero value below `2 ^ k`. -/
theorem ulpExp_le (x : ℚ) (k : ℤ) (hk : -125 ≤ k) (hx : x ≠ 0) (h : |x| < (2 : ℚ) ^ k) :
    ulpExp x ≤ k - 24 := by
  have hpos : 0 < |x| := abs_pos.mpr hx
  have hb : (1 : ℕ) < 2 := by norm_num
  have hl : Int.log 2 |x| < k := by
    apply (Int.lt_zpow_iff_log_lt hb hpos).mp
    simpa using h
  unfold ulpExp
  omega

/-- Evaluation of `f32` once the binade of `x` is known. -/
theorem f32_eval (x : ℚ) (e : ℤ) (he : -126 ≤ e) (h1 : (2 : ℚ) ^ e ≤ |x|)
    (h2 : |x| < (2 : ℚ) ^ (e + 1)) :
    f32 x = (roundEven (x / (2 : ℚ) ^ (e - 23)) : ℚ) * (2 : ℚ) ^ (e - 23) := by
  unfold f32
  rw [ulpExp_eq x e he h1 h2]

/-- Zero is a binary32 number. -/
theorem f32_zero : f32 0 = 0 := by
  unfold f32
  rw [zero_div]
  have := roundEven_intCast 0
  simp only [Int.cast_zero] at this
  rw [this]
  simp

/-- A value `m * 2 ^ j` with `|m| < 2 ^ 24` and `-149 ≤ j` is a binary32 number:
rounding leaves it as it is. -/
theorem f32_exact (m j : ℤ) (hm : |m| < 2 ^ 24) (hj : -149 ≤ j) :
    f32 ((m : ℚ) * (2 : ℚ) ^ j) = (m : ℚ) * (2 : ℚ) ^ j := by
  have h2 : (2 : ℚ) ≠ 0 := by norm_num
  have hb : (1 : ℕ) < 2 := by norm_num
  by_cases hm0 : m = 0
  · subst hm0
    simp only [Int.cast_zero, zero_mul]
    exact f32_zero
  have hle : ulpExp ((m : ℚ) * (2 : ℚ) ^ j) ≤ j := by
    have hpos : 0 < |(m : ℚ) * (2 : ℚ) ^ j| := by
      rw [abs_pos]
      exact mul_ne_zero (by exact_mod_cast hm0) (zpow_ne_zero _ h2)
    have hlt : |(m : ℚ) * (2 : ℚ) ^ j| < (2 : ℚ) ^ (24 + j) := by
      rw [abs_mul, abs_of_pos (zpow_pos (by norm_num : (0 : ℚ) < 2) j), zpow_add₀ h2]
      apply mul_lt_mul_of_pos_right _ (zpow_pos (by norm_num) j)
      have h : ((|m| : ℤ) : ℚ) < ((2 ^ 24 : ℤ) : ℚ) := by exact_mod_cast hm
      rw [Int.cast_abs] at h
      norm_num at h ⊢
      exact h
    have hl : Int.log 2 |(m : ℚ) * (2 : ℚ) ^ j| < 24 + j := by
      apply (Int.lt_zpow_iff_log_lt hb hpos).mp
      simpa using hlt
    unfold ulpExp
    omega
  unfold f32
  generalize ulpExp ((m : ℚ) * (2 : ℚ) ^ j) = u at hle
  obtain ⟨k, hk⟩ := Int.le.dest hle
  have e1 : (m : ℚ) * (2 : ℚ) ^ j / (2 : ℚ) ^ u = ((m * 2 ^ k : ℤ) : ℚ) := by
    rw [← hk, zpow_add₀ h2, zpow_natCast]
    push_cast
    field_simp
    ring
  rw [e1, roundEven_intCast, ← hk, zpow_add₀ h2, zpow_natCast]
  push_cast
  ring

/-- An integer of magnitude below `2 ^ 24` is a binary32 number. -/
theorem f32_intCast (n : ℤ) (h : |n| < 2 ^ 24) : f32 (n : ℚ) = (n : ℚ) := by
  have := f32_exact n 0 h (by norm_num)
  simpa using this

/-- A natural number below `2 ^ 24` is a binary32 number. -/
theorem f32_natCast (n : ℕ) (h : n < 2 ^ 24) : f32 (n : ℚ) = (n : ℚ) := by
  have := f32_intCast (n : ℤ) (by rw [abs_of_nonneg (Int.natCast_nonneg n)]; exact_mod_cast h)
  simpa using this

/-- Rounding to binary32 moves a value by at most half a unit in the last place. -/
theorem f32_err_ulp (x : ℚ) : |f32 x - x| ≤ (2 : ℚ) ^ ulpExp x / 2 := by
  have hu : (0 : ℚ) < (2 : ℚ) ^ ulpExp x := zpow_pos (by norm_num) _
  have h := roundEven_err (x / (2 : ℚ) ^ ulpExp x)
  have e : f32 x - x
      = (((roundEven (x / (2 : ℚ) ^ ulpExp x) : ℤ) : ℚ) - x / (2 : ℚ) ^ ulpExp x)
          * (2 : ℚ) ^ ulpExp x := by
    unfold f32
    field_simp
  rw [e, abs_mul, abs_of_pos hu]
  calc |((roundEven (x / (2 : ℚ) ^ ulpExp x) : ℤ) : ℚ) - x / (2 : ℚ) ^ ulpExp x|
        * (2 : ℚ) ^ ulpExp x
      ≤ 1 / 2 * (2 : ℚ) ^ ulpExp x := mul_le_mul_of_nonneg_right h (le_of_lt hu)
    _ = (2 : ℚ) ^ ulpExp x / 2 := by ring

/-- The rounding error of a value of magnitude below `2 ^ k`. -/
theorem f32_err (x : ℚ) (k : ℤ) (hk : -125 ≤ k) (h : |x| < (2 : ℚ) ^ k) :
    |f32 x - x| ≤ (2 : ℚ) ^ (k - 25) := by
  by_cases hx : x = 0
  · subst hx
    rw [f32_zero, sub_zero, abs_zero]
    exact le_of_lt (zpow_pos (by norm_num) _)
  have hu := ulpExp_le x k hk hx h
  have h1 := f32_err_ulp x
  have h2 : (2 : ℚ) ^ ulpExp x ≤ (2 : ℚ) ^ (k - 24) :=
    zpow_le_zpow_right₀ (by norm_num) hu
  have h3 : (2 : ℚ) ^ (k - 24) = (2 : ℚ) ^ (k - 25) * 2 := by
    have : k - 24 = (k - 25) + 1 := by ring
    rw [this, zpow_add₀ (by norm_num : (2 : ℚ) ≠ 0), zpow_one]
  linarith

/-- A value that is not positive rounds to a value that is not positive. -/
theorem f32_nonpos (x : ℚ) (h : x ≤ 0) : f32 x ≤ 0 := by
  have hu : (0 : ℚ) < (2 : ℚ) ^ ulpExp x := zpow_pos (by norm_num) _
  have hr : roundEven (x / (2 : ℚ) ^ ulpExp x) ≤ 0 := by
    apply roundEven_le
    simpa using div_nonpos_of_nonpos_of_nonneg h (le_of_lt hu)
  unfold f32
  have : ((roundEven (x / (2 : ℚ) ^ ulpExp x) : ℤ) : ℚ) ≤ 0 := by exact_mod_cast hr
  exact mul_nonpos_of_nonpos_of_nonneg this (le_of_lt hu)

/-- A value that is not negative rounds to a value that is not negative. -/
theorem f32_nonneg (x : ℚ) (h : 0 ≤ x) : 0 ≤ f32 x := by
  have hu : (0 : ℚ) < (2 : ℚ) ^ ulpExp x := zpow_pos (by norm_num) _
  have hr : 0 ≤ roundEven (x / (2 : ℚ) ^ ulpExp x) := by
    apply roundEven_ge
    simpa using div_nonneg h (le_of_lt hu)
  unfold f32
  have : (0 : ℚ) ≤ ((roundEven (x / (2 : ℚ) ^ ulpExp x) : ℤ) : ℚ) := by exact_mod_cast hr
  exact mul_nonneg this (le_of_lt hu)

/-! ## Prescale computation -/

/-- The `if (f < 1) f = 1; if (f > 3500) f = 3500;` clamp of the frequency. -/
theorem freq_clamp_eq (f : ℚ) :
    (if (if f < 1 then 1 else f) > 3500 then (3500 : ℚ) else (if f < 1 then 1 else f))
      = max 1 (min f 3500) := by
  by_cases h1 : f < 1
  · have h2 : ¬ (1 : ℚ) > 3500 := by norm_num
    have h3 : min f 3500 = f := min_eq_left (by linarith)
    rw [if_pos h1, if_neg h2, h3, max_eq_left (le_of_lt h1)]
  · rw [if_neg h1]
    by_cases h2 : f > 3500
    · rw [if_pos h2, min_eq_right (le_of_lt h2)]
      norm_num
    · rw [if_neg h2, min_eq_left (not_lt.mp h2), max_eq_right (not_lt.mp h1)]

/-- A float that lies between two naturals `a ≤ b < 2 ^ w` converts to its floor,
and the result lies between `a` and `b`. -/
theorem floatToUInt_of_bounds (conv : Nat → ℚ → Nat) (w : Nat) (x : ℚ) (a b : Nat)
    (ha : (a : ℚ) ≤ x) (hb : x ≤ (b : ℚ)) (hbw : b < 2 ^ w) :
    ((floatToUInt conv w x : Nat) : ℤ) = ⌊x⌋ ∧ a ≤ floatToUInt conv w x ∧
      floatToUInt conv w x ≤ b := by
  have h0 : (0 : ℚ) ≤ x := le_trans (Nat.cast_nonneg a) ha
  have hfa : (a : ℤ) ≤ ⌊x⌋ := by
    apply Int.le_floor.mpr
    exact_mod_cast ha
  have hfb : ⌊x⌋ ≤ (b : ℤ) := by
    have h := Int.floor_le x
    have h' : ((⌊x⌋ : ℤ) : ℚ) ≤ ((b : ℤ) : ℚ) := by
      push_cast
      exact le_trans h hb
    exact_mod_cast h'
  have hnn : 0 ≤ ⌊x⌋ := le_trans (Int.natCast_nonneg a) hfa
  have ht : ftrunc x = ⌊x⌋ := by
    unfold ftrunc
    rw [if_pos h0]
  have hlt : ⌊x⌋ < 2 ^ w := by
    have : ((b : ℕ) : ℤ) < ((2 ^ w : ℕ) : ℤ) := by exact_mod_cast hbw
    push_cast at this
    omega
  have e : floatToUInt conv w x = ⌊x⌋.toNat := by
    unfold floatToUInt
    rw [ht, if_pos ⟨hnn, hlt⟩]
  rw [e]
  refine ⟨Int.toNat_of_nonneg hnn, ?_, ?_⟩ <;> omega

/-- The prescale byte in closed form: the floor of the clamped `prescaleval`. -/
theorem prescale_eq_floor (cfg : Config) (f : ℚ)
    (hmin : cfg.PCA9685_PRESCALE_MIN ≤ cfg.PCA9685_PRESCALE_MAX)
    (hmax : cfg.PCA9685_PRESCALE_MAX ≤ 255) :
    ((prescale cfg f : Nat) : ℤ)
      = ⌊max (cfg.PCA9685_PRESCALE_MIN : ℚ) (min (cfg.PCA9685_PRESCALE_MAX : ℚ)
          (prescaleval cfg f))⌋ ∧
    cfg.PCA9685_PRESCALE_MIN ≤ prescale cfg f ∧ prescale cfg f ≤ cfg.PCA9685_PRESCALE_MAX := by
  have hq : (cfg.PCA9685_PRESCALE_MIN : ℚ) ≤ (cfg.PCA9685_PRESCALE_MAX : ℚ) := by
    exact_mod_cast hmin
  have e1 : f32 (cfg.PCA9685_PRESCALE_MIN : ℚ) = (cfg.PCA9685_PRESCALE_MIN : ℚ) :=
    f32_natCast _ (by norm_num; omega)
  have e2 : f32 (cfg.PCA9685_PRESCALE_MAX : ℚ) = (cfg.PCA9685_PRESCALE_MAX : ℚ) :=
    f32_natCast _ (by norm_num; omega)
  unfold prescale
  simp only [e1, e2]
  generalize prescaleval cfg f = x
  have hc : (if (if x < (cfg.PCA9685_PRESCALE_MIN : ℚ) then (cfg.PCA9685_PRESCALE_MIN : ℚ) else x)
        > (cfg.PCA9685_PRESCALE_MAX : ℚ) then (cfg.PCA9685_PRESCALE_MAX : ℚ)
      else (if x < (cfg.PCA9685_PRESCALE_MIN : ℚ) then (cfg.PCA9685_PRESCALE_MIN : ℚ) else x))
      = max (cfg.PCA9685_PRESCALE_MIN : ℚ) (min (cfg.PCA9685_PRESCALE_MAX : ℚ) x) := by
    by_cases h1 : x < (cfg.PCA9685_PRESCALE_MIN : ℚ)
    · rw [if_pos h1, if_neg (not_lt.mpr hq), min_eq_right (by linarith),
        max_eq_left (le_of_lt h1)]
    · rw [if_neg h1]
      by_cases h2 : x > (cfg.PCA9685_PRESCALE_MAX : ℚ)
      · rw [if_pos h2, min_eq_left (le_of_lt h2), max_eq_right hq]
      · rw [if_neg h2, min_eq_right (not_lt.mp h2), max_eq_right (not_lt.mp h1)]
  rw [hc]
  exact floatToUInt_of_bounds _ 8 _ _ _ (le_max_left _ _)
    (max_le hq (min_le_left _ _)) (by norm_num; omega)

/-- The prescale byte depends on the frequency only through its clamp to
`[1, 3500]`. -/
theorem prescale_congr (cfg : Config) (f g : ℚ)
    (h : max 1 (min f 3500) = max 1 (min g 3500)) : prescale cfg f = prescale cfg g := by
  unfold prescale prescaleval prescaleQuot
  simp only [freq_clamp_eq, h]

/-- The quotient of line 51 in terms of the clamped frequency. -/
theorem prescaleQuot_eq (cfg : Config) (f : ℚ) :
    prescaleQuot cfg f
      = f32 (f32 (cfg.PCA9685_INTERNAL_FREQ : ℚ) / f32 (max 1 (min f 3500) * 4096)) := by
  unfold prescaleQuot
  simp only [freq_clamp_eq]

/-- For an oscillator frequency that fits an `int`, the exact quotient that line
51 rounds is not negative and below `2 ^ 24`. -/
theorem prescaleQuot_arg_bound (cfg : Config) (f : ℚ)
    (hF : cfg.PCA9685_INTERNAL_FREQ < 2 ^ 31) :
    0 ≤ f32 (cfg.PCA9685_INTERNAL_FREQ : ℚ) / f32 (max 1 (min f 3500) * 4096) ∧
    f32 (cfg.PCA9685_INTERNAL_FREQ : ℚ) / f32 (max 1 (min f 3500) * 4096) < (2 : ℚ) ^ (24 : ℤ) := by
  have hFq : ((cfg.PCA9685_INTERNAL_FREQ : ℕ) : ℚ) < 2 ^ 31 := by exact_mod_cast hF
  have hF0 : (0 : ℚ) ≤ ((cfg.PCA9685_INTERNAL_FREQ : ℕ) : ℚ) := Nat.cast_nonneg _
  have hnum := f32_err (cfg.PCA9685_INTERNAL_FREQ : ℚ) 31 (by norm_num)
    (by rw [abs_of_nonneg hF0]; norm_num; linarith)
  have hnum0 := f32_nonneg (cfg.PCA9685_INTERNAL_FREQ : ℚ) hF0
  have hc1 : (1 : ℚ) ≤ max 1 (min f 3500) := le_max_left _ _
  have hc2 : max 1 (min f 3500) ≤ (3500 : ℚ) := max_le (by norm_num) (min_le_right _ _)
  have hden := f32_err (max 1 (min f 3500) * 4096) 24 (by norm_num)
    (by rw [abs_of_nonneg (by linarith)]; norm_num; linarith)
  rw [abs_le] at hnum hden
  norm_num at hnum hden
  have hd : (4095 : ℚ) ≤ f32 (max 1 (min f 3500) * 4096) := by linarith
  have hdpos : (0 : ℚ) < f32 (max 1 (min f 3500) * 4096) := by linarith
  refine ⟨div_nonneg hnum0 (le_of_lt hdpos), ?_⟩
  rw [div_lt_iff₀ hdpos]
  norm_num
  nlinarith

/-- Subtracting 1 from a binary32 number that is at least 1 and below `2 ^ 24`
is exact. -/
theorem f32_sub_one_exact (y : ℚ) (hy0 : 0 ≤ y) (hy : y < (2 : ℚ) ^ (24 : ℤ))
    (hQ : 1 ≤ f32 y) : f32 (f32 y - 1) = f32 y - 1 := by
  have h2 : (2 : ℚ) ≠ 0 := by norm_num
  have hb : (1 : ℕ) < 2 := by norm_num
  have hypos : 0 < y := by
    rcases eq_or_lt_of_le hy0 with h | h
    · rw [← h, f32_zero] at hQ
      norm_num at hQ
    · exact h
  have habs : |y| = y := abs_of_pos hypos
  -- the unit in the last place of `y` is `2 ^ (-k)` for a natural `k`
  have hu0 : ulpExp y ≤ 0 := by
    have := ulpExp_le y 24 (by norm_num) (ne_of_gt hypos) (by rw [habs]; exact hy)
    omega
  have hu1 := ulpExp_ge y
  -- the significand is at most `2 ^ 24`
  have hr : roundEven (y / (2 : ℚ) ^ ulpExp y) ≤ 2 ^ 24 := by
    apply roundEven_le
    have hlog : y < (2 : ℚ) ^ (Int.log 2 y + 1) := by
      have := Int.lt_zpow_succ_log_self hb y
      simpa using this
    have hle : Int.log 2 y + 1 ≤ ulpExp y + 24 := by
      unfold ulpExp
      rw [habs]
      omega
    have hlt : y < (2 : ℚ) ^ (ulpExp y + 24) :=
      lt_of_lt_of_le hlog (zpow_le_zpow_right₀ (by norm_num) hle)
    rw [zpow_add₀ h2] at hlt
    rw [div_le_iff₀ (zpow_pos (by norm_num) _)]
    push_cast
    have e24 : (2 : ℚ) ^ (24 : ℤ) = 2 ^ 24 := by norm_num
    rw [e24] at hlt
    linarith
  obtain ⟨k, hk⟩ := Int.le.dest hu0
  have hpk : (2 : ℚ) ^ ulpExp y * (2 : ℚ) ^ k = 1 := by
    rw [← zpow_natCast, ← zpow_add₀ h2, hk, zpow_zero]
  have hfy : f32 y = ((roundEven (y / (2 : ℚ) ^ ulpExp y) : ℤ) : ℚ) * (2 : ℚ) ^ ulpExp y := rfl
  have hsub : f32 y - 1
      = (((roundEven (y / (2 : ℚ) ^ ulpExp y) - 2 ^ k : ℤ)) : ℚ) * (2 : ℚ) ^ ulpExp y := by
    rw [hfy]
    push_cast
    rw [sub_mul, mul_comm ((2 : ℚ) ^ k) _, hpk]
  -- the significand of the difference is in `[0, 2 ^ 24)`
  have hm0 : 0 ≤ roundEven (y / (2 : ℚ) ^ ulpExp y) - 2 ^ k := by
    have h1 : (0 : ℚ) ≤ f32 y - 1 := by linarith
    rw [hsub] at h1
    have hu : (0 : ℚ) < (2 : ℚ) ^ ulpExp y := zpow_pos (by norm_num) _
    have := nonneg_of_mul_nonneg_left h1 hu
    exact_mod_cast this
  have hk1 : (1 : ℤ) ≤ 2 ^ k := one_le_pow₀ (by norm_num)
  rw [hsub]
  exact f32_exact _ _ (by rw [abs_of_nonneg hm0]; omega) hu1

/-- The prescale byte in terms of the binary32 quotient of line 51: its integer
part minus 1, clamped. -/
theorem prescale_eq_quot_floor (cfg : Config) (f : ℚ)
    (hF : cfg.PCA9685_INTERNAL_FREQ < 2 ^ 31)
    (hmin : cfg.PCA9685_PRESCALE_MIN ≤ cfg.PCA9685_PRESCALE_MAX)
    (hmax : cfg.PCA9685_PRESCALE_MAX ≤ 255) :
    ((prescale cfg f : Nat) : ℤ)
      = max (cfg.PCA9685_PRESCALE_MIN : ℤ) (min (cfg.PCA9685_PRESCALE_MAX : ℤ)
          (⌊prescaleQuot cfg f⌋ - 1)) := by
  have hm : Monotone (Int.floor : ℚ → ℤ) := Int.floor_mono
  rw [(prescale_eq_floor cfg f hmin hmax).1, hm.map_max, hm.map_min, Int.floor_natCast,
    Int.floor_natCast]
  have hb := prescaleQuot_arg_bound cfg f hF
  by_cases hQ : 1 ≤ prescaleQuot cfg f
  · have e : prescaleval cfg f = prescaleQuot cfg f - 1 := by
      unfold prescaleval
      rw [prescaleQuot_eq] at hQ ⊢
      exact f32_sub_one_exact _ hb.1 hb.2 hQ
    rw [e, Int.floor_sub_one]
  · have hQ' : prescaleQuot cfg f < 1 := not_le.mp hQ
    have hv : prescaleval cfg f ≤ 0 := by
      unfold prescaleval
      exact f32_nonpos _ (by linarith)
    have h1 : ⌊prescaleval cfg f⌋ ≤ 0 := by
      have := Int.floor_le (prescaleval cfg f)
      have h' : ((⌊prescaleval cfg f⌋ : ℤ) : ℚ) ≤ ((0 : ℤ) : ℚ) := by
        push_cast
        linarith
      exact_mod_cast h'
    have h2 : ⌊prescaleQuot cfg f⌋ < 1 := by
      have := Int.floor_le (prescaleQuot cfg f)
      have h' : ((⌊prescaleQuot cfg f⌋ : ℤ) : ℚ) < ((1 : ℤ) : ℚ) := by
        push_cast
        linarith
      exact_mod_cast h'
    omega

/-- The result of `PCA9685_Set_PWM_Freq` depends on the frequency only through
the prescale byte. -/
theorem Set_PWM_Freq_congr (cfg : Config) (hi2c : I2C_HandleTypeDef) (f g : ℚ)
    (h : prescale cfg f = prescale cfg g) :
    PCA9685_Set_PWM_Freq cfg hi2c f = PCA9685_Set_PWM_Freq cfg hi2c g := by
  unfold PCA9685_Set_PWM_Freq
  rw [h]

/-- Whatever the bus does, a write to `PRESCALE` carries the byte `prescale`. -/
theorem Set_PWM_Freq_prescale_writes (cfg : Config) (hi2c : I2C_HandleTypeDef) (f : ℚ)
    (hreg : cfg.PCA9685_REG_MODE1_ADDR ≠ cfg.PCA9685_REG_PRESCALE_ADDR)
    (data : List Nat)
    (hdata : data ∈ writesTo cfg.PCA9685_REG_PRESCALE_ADDR
      (List.drop hi2c.trace.length (PCA9685_Set_PWM_Freq cfg hi2c f).2.trace)) :
    data = [prescale cfg f] := by
  by_cases hok : ∀ i, i < 5 → hi2c.status (hi2c.calls + i) = HAL_OK
  · rw [Set_PWM_Freq_all_ok cfg hi2c f hok] at hdata
    simpa [writesTo, hreg] using hdata
  · obtain ⟨j, hj, hpre, hfail⟩ := first_failure_exists hi2c 5 hok
    rw [Set_PWM_Freq_first_failure cfg hi2c f j hj hpre hfail] at hdata
    simp only [List.drop_left] at hdata
    interval_cases j <;> simp [writesTo, hreg] at hdata <;> exact hdata

/-- Claim C5. With `PRESCALE_MIN ≤ PRESCALE_MAX ≤ 255` the prescale byte of
`PCA9685_Set_PWM_Freq` lies in `[PRESCALE_MIN, PRESCALE_MAX]` for every
frequency, and it is the only value the function ever writes to `PRESCALE`.  For
`f < 1` the byte is the one computed for 1 and for `f > 3500` the one computed
for 3500, so the whole call behaves as the call with the clamped frequency. -/
theorem PCA9685_Set_PWM_Freq_prescale_range (cfg : Config) (hi2c : I2C_HandleTypeDef) (f : ℚ)
    (hmin : cfg.PCA9685_PRESCALE_MIN ≤ cfg.PCA9685_PRESCALE_MAX)
    (hmax : cfg.PCA9685_PRESCALE_MAX ≤ 255)
    (hreg : cfg.PCA9685_REG_MODE1_ADDR ≠ cfg.PCA9685_REG_PRESCALE_ADDR) :
    (cfg.PCA9685_PRESCALE_MIN ≤ prescale cfg f ∧ prescale cfg f ≤ cfg.PCA9685_PRESCALE_MAX) ∧
    (∀ data, data ∈ writesTo cfg.PCA9685_REG_PRESCALE_ADDR
        (List.drop hi2c.trace.length (PCA9685_Set_PWM_Freq cfg hi2c f).2.trace) →
      data = [prescale cfg f]) ∧
    (f < 1 → prescale cfg f = prescale cfg 1 ∧
      PCA9685_Set_PWM_Freq cfg hi2c f = PCA9685_Set_PWM_Freq cfg hi2c 1) ∧
    (3500 < f → prescale cfg f = prescale cfg 3500 ∧
      PCA9685_Set_PWM_Freq cfg hi2c f = PCA9685_Set_PWM_Freq cfg hi2c 3500) := by
  refine ⟨(prescale_eq_floor cfg f hmin hmax).2,
    Set_PWM_Freq_prescale_writes cfg hi2c f hreg, ?_, ?_⟩
  · intro h
    have e : prescale cfg f = prescale cfg 1 := by
      apply prescale_congr
      rw [min_eq_left (by linarith), max_eq_left (le_of_lt h)]
      norm_num
    exact ⟨e, Set_PWM_Freq_congr cfg hi2c f 1 e⟩
  · intro h
    have e : prescale cfg f = prescale cfg 3500 := by
      apply prescale_congr
      rw [min_eq_right (le_of_lt h)]
      norm_num
    exact ⟨e, Set_PWM_Freq_congr cfg hi2c f 3500 e⟩

/-- Witness for C5: 5000 Hz, above the input range. -/
theorem PCA9685_Set_PWM_Freq_prescale_range_witness :
    (3 ≤ prescale sampleConfig 5000 ∧ prescale sampleConfig 5000 ≤ 255) ∧
    (∀ data, data ∈ writesTo 0xFE
        (List.drop 0 (PCA9685_Set_PWM_Freq sampleConfig (okBus 0) 5000).2.trace) →
      data = [prescale sampleConfig 5000]) ∧
    ((5000 : ℚ) < 1 → prescale sampleConfig 5000 = prescale sampleConfig 1 ∧
      PCA9685_Set_PWM_Freq sampleConfig (okBus 0) 5000
        = PCA9685_Set_PWM_Freq sampleConfig (okBus 0) 1) ∧
    ((3500 : ℚ) < 5000 → prescale sampleConfig 5000 = prescale sampleConfig 3500 ∧
      PCA9685_Set_PWM_Freq sampleConfig (okBus 0) 5000
        = PCA9685_Set_PWM_Freq sampleConfig (okBus 0) 3500) :=
  PCA9685_Set_PWM_Freq_prescale_range sampleConfig (okBus 0) 5000
    (by decide) (by decide) (by decide)

/-- The oscillator frequency 25 MHz is a binary32 number. -/
theorem f32_sample_freq : f32 (25000000 : ℚ) = 25000000 := by
  have h := f32_exact 12500000 1 (by norm_num) (by norm_num)
  norm_num at h
  exact h

/-- At 60 Hz the binary32 quotient of line 51 lies between 101 and 102. -/
theorem prescaleQuot_sample_60 : ⌊prescaleQuot sampleConfig 60⌋ = 101 := by
  have e1 : f32 ((max 1 (min 60 3500) : ℚ) * 4096) = 245760 := by
    have h := f32_natCast 245760 (by norm_num)
    norm_num at h ⊢
    exact h
  have herr := f32_err ((25000000 : ℚ) / 245760) 7 (by norm_num)
    (by rw [abs_of_nonneg (by norm_num)]; norm_num)
  rw [abs_le] at herr
  norm_num at herr
  rw [prescaleQuot_eq, Int.floor_eq_iff]
  simp only [sampleConfig]
  push_cast
  rw [f32_sample_freq, e1]
  constructor
  · norm_num
    linarith [herr.1]
  · norm_num
    linarith [herr.2]

/-- At 60 Hz the driver computes the prescale byte 100. -/
theorem prescale_sample_60 : prescale sampleConfig 60 = 100 := by
  have h := prescale_eq_quot_floor sampleConfig 60 (by decide) (by decide) (by decide)
  rw [prescaleQuot_sample_60] at h
  have e : max ((sampleConfig.PCA9685_PRESCALE_MIN : ℕ) : ℤ)
      (min ((sampleConfig.PCA9685_PRESCALE_MAX : ℕ) : ℤ) (101 - 1)) = 100 := by decide
  rw [e] at h
  exact_mod_cast h

/-- At 60 Hz the rounded formula gives round(101.72..) - 1 = 101. -/
theorem prescaleRounded_sample_60 : prescaleRounded sampleConfig 60 = 101 := by
  have e : round (((sampleConfig.PCA9685_INTERNAL_FREQ : ℕ) : ℚ) / (max 1 (min 60 3500) * 4096))
      = 102 := by
    rw [round_eq, Int.floor_eq_iff]
    simp only [sampleConfig]
    norm_num
  unfold prescaleRounded
  rw [e]
  simp [sampleConfig]

/-- Counterexample to C6: with a 25 MHz oscillator and the prescale range 3..255,
at 60 Hz the driver writes 100 while `round(25000000 / (60 * 4096)) - 1` is 101. -/
theorem prescale_not_rounded :
    prescale sampleConfig 60 = 100 ∧ prescaleRounded sampleConfig 60 = 101 ∧
    ((prescale sampleConfig 60 : Nat) : ℤ) ≠ prescaleRounded sampleConfig 60 := by
  refine ⟨prescale_sample_60, prescaleRounded_sample_60, ?_⟩
  rw [prescale_sample_60, prescaleRounded_sample_60]
  decide

/-- Claim C6, amended. With an oscillator frequency that fits an `int`,
`PRESCALE_MIN ≤ PRESCALE_MAX ≤ 255` and `f'` the frequency clamped to
`[1, 3500]`, the prescale byte equals `⌊Q⌋ - 1` clamped to
`[PRESCALE_MIN, PRESCALE_MAX]`, where `Q` is the quotient
`INTERNAL_FREQ / (f' * 4096)` as the driver computes it, in binary32: the
quotient is cut to its integer part, not rounded to the nearest integer. -/
theorem prescale_floor_formula (cfg : Config) (f : ℚ)
    (hF : cfg.PCA9685_INTERNAL_FREQ < 2 ^ 31)
    (hmin : cfg.PCA9685_PRESCALE_MIN ≤ cfg.PCA9685_PRESCALE_MAX)
    (hmax : cfg.PCA9685_PRESCALE_MAX ≤ 255) :
    ((prescale cfg f : Nat) : ℤ)
      = max (cfg.PCA9685_PRESCALE_MIN : ℤ) (min (cfg.PCA9685_PRESCALE_MAX : ℤ)
          (⌊f32 (f32 (cfg.PCA9685_INTERNAL_FREQ : ℚ) / f32 (max 1 (min f 3500) * 4096))⌋
            - 1)) := by
  rw [prescale_eq_quot_floor cfg f hF hmin hmax, prescaleQuot_eq]

/-- Witness for C6 (amended): 60 Hz. -/
theorem prescale_floor_formula_witness :
    ((prescale sampleConfig 60 : Nat) : ℤ)
      = max ((3 : ℕ) : ℤ) (min ((255 : ℕ) : ℤ)
          (⌊f32 (f32 ((25000000 : ℕ) : ℚ) / f32 (max 1 (min 60 3500) * 4096))⌋ - 1)) :=
  prescale_floor_formula sampleConfig 60 (by decide) (by decide) (by decide)

/-! ## Throttle mapping -/

/-- A conversion whose truncated value fits the type yields that value. -/
theorem floatToUInt_in_range (conv : Nat → ℚ → Nat) (w : Nat) (x : ℚ)
    (h0 : 0 ≤ ftrunc x) (h1 : ftrunc x < 2 ^ w) :
    floatToUInt conv w x = (ftrunc x).toNat := by
  unfold floatToUInt
  rw [if_pos ⟨h0, h1⟩]

/-- The exact value of the expression of line 147 as one quotient of integers. -/
theorem pulse_expr_eq (N : Nat) (t W : ℤ) :
    (N : ℚ) + ((t * W : ℤ) : ℚ) / 200 = (((200 * (N : ℤ) + t * W : ℤ)) : ℚ) / ((200 : ℕ) : ℚ) := by
  push_cast
  field_simp
  ring

/-- Truncation toward zero of a quotient by 200, in integer arithmetic. -/
theorem ftrunc_div200 (n : ℤ) :
    ftrunc ((n : ℚ) / ((200 : ℕ) : ℚ)) = if 0 ≤ n then n / 200 else -((-n) / 200) := by
  unfold ftrunc
  by_cases hn : 0 ≤ n
  · have h0 : (0 : ℚ) ≤ (n : ℚ) / ((200 : ℕ) : ℚ) :=
      div_nonneg (by exact_mod_cast hn) (Nat.cast_nonneg _)
    rw [if_pos h0, if_pos hn, Rat.floor_intCast_div_natCast]
    rfl
  · have hneg : (n : ℚ) < 0 := by exact_mod_cast (not_le.mp hn)
    have h0 : ¬ (0 : ℚ) ≤ (n : ℚ) / ((200 : ℕ) : ℚ) := by
      rw [not_le]
      exact div_neg_of_neg_of_pos hneg (by norm_num)
    have e : (n : ℚ) / ((200 : ℕ) : ℚ) = -((((-n : ℤ)) : ℚ) / ((200 : ℕ) : ℚ)) := by
      push_cast
      ring
    rw [if_neg h0, if_neg hn, e, Int.ceil_neg, Rat.floor_intCast_div_natCast]
    rfl

/-- Truncation toward zero of a value strictly between two consecutive integers. -/
theorem ftrunc_between (y : ℚ) (q : ℤ) (h1 : (q : ℚ) < y) (h2 : y < (q : ℚ) + 1) :
    ftrunc y = if 0 ≤ q then q else q + 1 := by
  unfold ftrunc
  by_cases hq : 0 ≤ q
  · have hy : (0 : ℚ) ≤ y := by
      have : (0 : ℚ) ≤ (q : ℚ) := by exact_mod_cast hq
      linarith
    rw [if_pos hy, if_pos hq, Int.floor_eq_iff]
    exact ⟨le_of_lt h1, h2⟩
  · have hq' : (q : ℚ) + 1 ≤ 0 := by
      have : q + 1 ≤ 0 := by omega
      exact_mod_cast this
    have hy : ¬ (0 : ℚ) ≤ y := by
      rw [not_le]
      linarith
    rw [if_neg hy, if_neg hq, Int.ceil_eq_iff]
    push_cast
    constructor
    · linarith
    · linarith

/-- The product `Throttle * (MAX - MIN)` of line 147 for a clamped throttle and
pulse bounds of at most 4095. -/
theorem pulse_product_bound (cfg : Config) (t : ℤ) (hlo : -100 ≤ t) (hhi : t ≤ 100)
    (hW0 : cfg.SERVO_PULSE_MIN ≤ cfg.SERVO_PULSE_MAX) (hW : cfg.SERVO_PULSE_MAX ≤ 4095) :
    -409500 ≤ t * ((cfg.SERVO_PULSE_MAX : ℤ) - (cfg.SERVO_PULSE_MIN : ℤ)) ∧
    t * ((cfg.SERVO_PULSE_MAX : ℤ) - (cfg.SERVO_PULSE_MIN : ℤ)) ≤ 409500 := by
  have h0 : (0 : ℤ) ≤ (cfg.SERVO_PULSE_MAX : ℤ) - (cfg.SERVO_PULSE_MIN : ℤ) := by omega
  have h1 : t * ((cfg.SERVO_PULSE_MAX : ℤ) - (cfg.SERVO_PULSE_MIN : ℤ))
      ≤ 100 * ((cfg.SERVO_PULSE_MAX : ℤ) - (cfg.SERVO_PULSE_MIN : ℤ)) :=
    mul_le_mul_of_nonneg_right hhi h0
  have h2 : -100 * ((cfg.SERVO_PULSE_MAX : ℤ) - (cfg.SERVO_PULSE_MIN : ℤ))
      ≤ t * ((cfg.SERVO_PULSE_MAX : ℤ) - (cfg.SERVO_PULSE_MIN : ℤ)) :=
    mul_le_mul_of_nonneg_right hlo h0
  constructor <;> omega

/-- When the product of line 147 is a multiple of 200, the float value of the
expression is the exact integer value. -/
theorem pulseval_exact (cfg : Config) (t k : ℤ) (hlo : -100 ≤ t) (hhi : t ≤ 100)
    (hW0 : cfg.SERVO_PULSE_MIN ≤ cfg.SERVO_PULSE_MAX) (hW : cfg.SERVO_PULSE_MAX ≤ 4095)
    (hN : cfg.SERVO_PULSE_NEUTRAL ≤ 4095)
    (hk : t * ((cfg.SERVO_PULSE_MAX : ℤ) - (cfg.SERVO_PULSE_MIN : ℤ)) = 200 * k) :
    pulseval cfg t = (cfg.SERVO_PULSE_NEUTRAL : ℚ) + (k : ℚ) := by
  have hb := pulse_product_bound cfg t hlo hhi hW0 hW
  have e1 : f32 ((t * ((cfg.SERVO_PULSE_MAX : ℤ) - (cfg.SERVO_PULSE_MIN : ℤ)) : ℤ) : ℚ)
      = ((200 * k : ℤ) : ℚ) := by
    rw [hk]
    exact f32_intCast _ (by rw [abs_lt]; constructor <;> omega)
  have e2 : ((200 * k : ℤ) : ℚ) / 200 = (k : ℚ) := by
    push_cast
    field_simp
  have e3 : f32 (k : ℚ) = (k : ℚ) := f32_intCast _ (by rw [abs_lt]; constructor <;> omega)
  have e4 : f32 (cfg.SERVO_PULSE_NEUTRAL : ℚ) = (cfg.SERVO_PULSE_NEUTRAL : ℚ) :=
    f32_natCast _ (by norm_num; omega)
  have e5 : (cfg.SERVO_PULSE_NEUTRAL : ℚ) + (k : ℚ)
      = (((cfg.SERVO_PULSE_NEUTRAL : ℤ) + k : ℤ) : ℚ) := by push_cast; rfl
  unfold pulseval
  rw [e1, e2, e3, e4, e5]
  exact f32_intCast _ (by rw [abs_lt]; constructor <;> omega)

/-- The float value of the expression of line 147 is within `5 / 16384` of its
exact value, for a clamped throttle and pulse constants of at most 4095. -/
theorem pulseval_near (cfg : Config) (t : ℤ) (hlo : -100 ≤ t) (hhi : t ≤ 100)
    (hW0 : cfg.SERVO_PULSE_MIN ≤ cfg.SERVO_PULSE_MAX) (hW : cfg.SERVO_PULSE_MAX ≤ 4095)
    (hN : cfg.SERVO_PULSE_NEUTRAL ≤ 4095) :
    |pulseval cfg t - ((cfg.SERVO_PULSE_NEUTRAL : ℚ)
        + ((t * ((cfg.SERVO_PULSE_MAX : ℤ) - (cfg.SERVO_PULSE_MIN : ℤ)) : ℤ) : ℚ) / 200)|
      ≤ 5 / 16384 := by
  have hb := pulse_product_bound cfg t hlo hhi hW0 hW
  unfold pulseval
  generalize t * ((cfg.SERVO_PULSE_MAX : ℤ) - (cfg.SERVO_PULSE_MIN : ℤ)) = s at hb ⊢
  have hs1 : (-409500 : ℚ) ≤ (s : ℚ) := by exact_mod_cast hb.1
  have hs2 : (s : ℚ) ≤ 409500 := by exact_mod_cast hb.2
  have e1 : f32 (s : ℚ) = (s : ℚ) := f32_intCast _ (by rw [abs_lt]; constructor <;> omega)
  have e4 : f32 (cfg.SERVO_PULSE_NEUTRAL : ℚ) = (cfg.SERVO_PULSE_NEUTRAL : ℚ) :=
    f32_natCast _ (by norm_num; omega)
  have hN0 : (0 : ℚ) ≤ (cfg.SERVO_PULSE_NEUTRAL : ℚ) := Nat.cast_nonneg _
  have hN1 : (cfg.SERVO_PULSE_NEUTRAL : ℚ) ≤ 4095 := by exact_mod_cast hN
  have hx : |(s : ℚ) / 200| < (2 : ℚ) ^ (11 : ℤ) := by
    rw [abs_lt]
    norm_num
    constructor <;> linarith
  have hb1 := f32_err ((s : ℚ) / 200) 11 (by norm_num) hx
  rw [abs_le] at hb1
  norm_num at hb1
  have hz : |(cfg.SERVO_PULSE_NEUTRAL : ℚ) + f32 ((s : ℚ) / 200)| < (2 : ℚ) ^ (13 : ℤ) := by
    rw [abs_lt]
    norm_num
    constructor <;> linarith [hb1.1, hb1.2]
  have hb2 := f32_err ((cfg.SERVO_PULSE_NEUTRAL : ℚ) + f32 ((s : ℚ) / 200)) 13 (by norm_num) hz
  rw [abs_le] at hb2
  norm_num at hb2
  rw [e1, e4, abs_le]
  constructor <;> linarith [hb1.1, hb1.2, hb2.1, hb2.2]

/-- Binary32 rounding does not change the truncated value of the expression of
line 147, for a clamped throttle and pulse constants of at most 4095. -/
theorem ftrunc_pulseval (cfg : Config) (t : ℤ) (hlo : -100 ≤ t) (hhi : t ≤ 100)
    (hW0 : cfg.SERVO_PULSE_MIN ≤ cfg.SERVO_PULSE_MAX) (hW : cfg.SERVO_PULSE_MAX ≤ 4095)
    (hN : cfg.SERVO_PULSE_NEUTRAL ≤ 4095) :
    ftrunc (pulseval cfg t)
      = ftrunc ((cfg.SERVO_PULSE_NEUTRAL : ℚ)
        + ((t * ((cfg.SERVO_PULSE_MAX : ℤ) - (cfg.SERVO_PULSE_MIN : ℤ)) : ℤ) : ℚ) / 200) := by
  by_cases hd : (t * ((cfg.SERVO_PULSE_MAX : ℤ) - (cfg.SERVO_PULSE_MIN : ℤ))) % 200 = 0
  · have hk : t * ((cfg.SERVO_PULSE_MAX : ℤ) - (cfg.SERVO_PULSE_MIN : ℤ))
        = 200 * (t * ((cfg.SERVO_PULSE_MAX : ℤ) - (cfg.SERVO_PULSE_MIN : ℤ)) / 200) := by
      omega
    rw [pulseval_exact cfg t _ hlo hhi hW0 hW hN hk]
    congr 1
    rw [add_right_inj]
    have : ((t * ((cfg.SERVO_PULSE_MAX : ℤ) - (cfg.SERVO_PULSE_MIN : ℤ)) : ℤ) : ℚ)
        = ((200 * (t * ((cfg.SERVO_PULSE_MAX : ℤ) - (cfg.SERVO_PULSE_MIN : ℤ)) / 200) : ℤ) : ℚ) := by
      rw [← hk]
    rw [this]
    push_cast
    field_simp
  · have hnear := pulseval_near cfg t hlo hhi hW0 hW hN
    rw [pulse_expr_eq] at hnear ⊢
    generalize pulseval cfg t = c at hnear
    generalize hn : 200 * (cfg.SERVO_PULSE_NEUTRAL : ℤ)
      + t * ((cfg.SERVO_PULSE_MAX : ℤ) - (cfg.SERVO_PULSE_MIN : ℤ)) = n at hnear
    have hr1 : 1 ≤ n % 200 := by omega
    have hr2 : n % 200 ≤ 199 := by omega
    have hdiv : n = 200 * (n / 200) + n % 200 := by omega
    have hE : ((n : ℤ) : ℚ) / ((200 : ℕ) : ℚ)
        = ((n / 200 : ℤ) : ℚ) + ((n % 200 : ℤ) : ℚ) / 200 := by
      have : ((n : ℤ) : ℚ) = ((200 * (n / 200) + n % 200 : ℤ) : ℚ) := by rw [← hdiv]
      rw [this]
      push_cast
      field_simp
      ring
    have hr1q : (1 : ℚ) ≤ ((n % 200 : ℤ) : ℚ) := by exact_mod_cast hr1
    have hr2q : ((n % 200 : ℤ) : ℚ) ≤ 199 := by exact_mod_cast hr2
    rw [abs_le] at hnear
    have hE1 : ((n / 200 : ℤ) : ℚ) < ((n : ℤ) : ℚ) / ((200 : ℕ) : ℚ) := by
      rw [hE]
      have : (0 : ℚ) < ((n % 200 : ℤ) : ℚ) / 200 := by positivity
      linarith
    have hE2 : ((n : ℤ) : ℚ) / ((200 : ℕ) : ℚ) < ((n / 200 : ℤ) : ℚ) + 1 := by
      rw [hE]
      have : ((n % 200 : ℤ) : ℚ) / 200 ≤ 199 / 200 := by
        rw [div_le_div_iff₀ (by norm_num) (by norm_num)]
        linarith
      linarith
    have hc1 : ((n / 200 : ℤ) : ℚ) < c := by
      have : (1 : ℚ) / 200 ≤ ((n % 200 : ℤ) : ℚ) / 200 := by
        rw [div_le_div_iff₀ (by norm_num) (by norm_num)]
        linarith
      rw [hE] at hnear
      linarith [hnear.1]
    have hc2 : c < ((n / 200 : ℤ) : ℚ) + 1 := by
      have : ((n % 200 : ℤ) : ℚ) / 200 ≤ 199 / 200 := by
        rw [div_le_div_iff₀ (by norm_num) (by norm_num)]
        linarith
      rw [hE] at hnear
      linarith [hnear.2]
    rw [ftrunc_between c _ hc1 hc2, ftrunc_between _ _ hE1 hE2]

/-- The pulse length for a throttle in `[-100, 100]` and pulse constants of at
most 4095, when the exact value of line 147 does not truncate to a negative
integer: the truncated exact value, clamped to `[MIN, MAX]`. -/
theorem pulselen_trunc (cfg : Config) (t : ℤ) (hlo : -100 ≤ t) (hhi : t ≤ 100)
    (hW0 : cfg.SERVO_PULSE_MIN ≤ cfg.SERVO_PULSE_MAX) (hW : cfg.SERVO_PULSE_MAX ≤ 4095)
    (hN : cfg.SERVO_PULSE_NEUTRAL ≤ 4095)
    (hnn : 0 ≤ ftrunc ((cfg.SERVO_PULSE_NEUTRAL : ℚ)
        + ((t * ((cfg.SERVO_PULSE_MAX : ℤ) - (cfg.SERVO_PULSE_MIN : ℤ)) : ℤ) : ℚ) / 200)) :
    pulselen cfg t =
      min cfg.SERVO_PULSE_MAX (max cfg.SERVO_PULSE_MIN
        (ftrunc ((cfg.SERVO_PULSE_NEUTRAL : ℚ)
          + ((t * ((cfg.SERVO_PULSE_MAX : ℤ) - (cfg.SERVO_PULSE_MIN : ℤ)) : ℤ) : ℚ) / 200)).toNat) := by
  have h1 : ¬ t < -100 := by omega
  have h2 : ¬ t > 100 := by omega
  have e1 : cfg.SERVO_PULSE_MIN % 2 ^ 16 = cfg.SERVO_PULSE_MIN := Nat.mod_eq_of_lt (by omega)
  have e2 : cfg.SERVO_PULSE_MAX % 2 ^ 16 = cfg.SERVO_PULSE_MAX := Nat.mod_eq_of_lt (by omega)
  have hb := pulse_product_bound cfg t hlo hhi hW0 hW
  have ht := ftrunc_pulseval cfg t hlo hhi hW0 hW hN
  have hlt : ftrunc ((cfg.SERVO_PULSE_NEUTRAL : ℚ)
        + ((t * ((cfg.SERVO_PULSE_MAX : ℤ) - (cfg.SERVO_PULSE_MIN : ℤ)) : ℤ) : ℚ) / 200)
      < 2 ^ 16 := by
    rw [pulse_expr_eq, ftrunc_div200]
    split_ifs <;> omega
  have e3 := floatToUInt_in_range cfg.outOfRangeConv 16 (pulseval cfg t)
    (by rw [ht]; exact hnn) (by rw [ht]; exact hlt)
  unfold pulselen
  simp only [if_neg h1, if_neg h2, e1, e2]
  rw [e3, ht]
  split_ifs <;> omega

/-- The pulse length for a throttle already in `[-100, 100]`, in integer
arithmetic, when the value of line 147 is not negative. -/
theorem pulselen_int (cfg : Config) (t : ℤ) (hlo : -100 ≤ t) (hhi : t ≤ 100)
    (hnn : 0 ≤ 200 * (cfg.SERVO_PULSE_NEUTRAL : ℤ)
      + t * ((cfg.SERVO_PULSE_MAX : ℤ) - (cfg.SERVO_PULSE_MIN : ℤ)))
    (hW0 : cfg.SERVO_PULSE_MIN ≤ cfg.SERVO_PULSE_MAX) (hW : cfg.SERVO_PULSE_MAX ≤ 4095)
    (hN : cfg.SERVO_PULSE_NEUTRAL ≤ 4095) :
    pulselen cfg t =
      min cfg.SERVO_PULSE_MAX (max cfg.SERVO_PULSE_MIN
        ((200 * (cfg.SERVO_PULSE_NEUTRAL : ℤ)
          + t * ((cfg.SERVO_PULSE_MAX : ℤ) - (cfg.SERVO_PULSE_MIN : ℤ))) / 200).toNat) := by
  have hq : 0 ≤ (200 * (cfg.SERVO_PULSE_NEUTRAL : ℤ)
      + t * ((cfg.SERVO_PULSE_MAX : ℤ) - (cfg.SERVO_PULSE_MIN : ℤ))) / 200 :=
    Int.ediv_nonneg hnn (by norm_num)
  rw [pulselen_trunc cfg t hlo hhi hW0 hW hN
    (by rw [pulse_expr_eq, ftrunc_div200, if_pos hnn]; exact hq)]
  rw [pulse_expr_eq, ftrunc_div200, if_pos hnn]

/-- Throttle 0 yields the neutral pulse. -/
theorem pulselen_zero (cfg : Config)
    (h1 : cfg.SERVO_PULSE_MIN ≤ cfg.SERVO_PULSE_NEUTRAL)
    (h2 : cfg.SERVO_PULSE_NEUTRAL ≤ cfg.SERVO_PULSE_MAX)
    (h3 : cfg.SERVO_PULSE_MAX ≤ 4095) :
    pulselen cfg 0 = cfg.SERVO_PULSE_NEUTRAL := by
  rw [pulselen_int cfg 0 (by norm_num) (by norm_num) (by omega) (by omega) (by omega) (by omega)]
  omega

/-- Throttle 100 yields the integer part of `NEUTRAL + (MAX - MIN) / 2`, capped at
`MAX`. -/
theorem pulselen_hundred (cfg : Config)
    (h1 : cfg.SERVO_PULSE_MIN ≤ cfg.SERVO_PULSE_NEUTRAL)
    (h2 : cfg.SERVO_PULSE_NEUTRAL ≤ cfg.SERVO_PULSE_MAX)
    (h3 : cfg.SERVO_PULSE_MAX ≤ 4095) :
    pulselen cfg 100 = min cfg.SERVO_PULSE_MAX
      (cfg.SERVO_PULSE_NEUTRAL + (cfg.SERVO_PULSE_MAX - cfg.SERVO_PULSE_MIN) / 2) := by
  rw [pulselen_int cfg 100 (by norm_num) (by norm_num) (by omega) (by omega) (by omega) (by omega)]
  omega

/-- Throttle -100 yields the integer part of `NEUTRAL - (MAX - MIN) / 2`, raised
to `MIN`, when that value is not negative. -/
theorem pulselen_minus_hundred (cfg : Config)
    (h1 : cfg.SERVO_PULSE_MIN ≤ cfg.SERVO_PULSE_NEUTRAL)
    (h2 : cfg.SERVO_PULSE_NEUTRAL ≤ cfg.SERVO_PULSE_MAX)
    (h3 : cfg.SERVO_PULSE_MAX ≤ 4095)
    (h4 : cfg.SERVO_PULSE_MAX ≤ 2 * cfg.SERVO_PULSE_NEUTRAL + cfg.SERVO_PULSE_MIN) :
    pulselen cfg (-100) = max cfg.SERVO_PULSE_MIN
      ((2 * cfg.SERVO_PULSE_NEUTRAL + cfg.SERVO_PULSE_MIN - cfg.SERVO_PULSE_MAX) / 2) := by
  rw [pulselen_int cfg (-100) (by norm_num) (by norm_num) (by omega) (by omega) (by omega)
    (by omega)]
  omega

/-- A call of `Servo_Set_Throttle` is one call of `PCA9685_Set_PWM` with ON count
0 and OFF count `pulselen`: same final bus state, and `HAL_OK` exactly when the call
returns `HAL_OK`. -/
theorem Servo_Set_Throttle_call (cfg : Config) (hi2c : I2C_HandleTypeDef) (Channel : Nat)
    (t : ℤ) :
    (Servo_Set_Throttle cfg hi2c Channel t).2
      = (PCA9685_Set_PWM cfg hi2c Channel 0 (pulselen cfg t)).2 ∧
    ((Servo_Set_Throttle cfg hi2c Channel t).1 = HAL_OK ↔
      (PCA9685_Set_PWM cfg hi2c Channel 0 (pulselen cfg t)).1 = HAL_OK) := by
  unfold Servo_Set_Throttle
  by_cases h : (PCA9685_Set_PWM cfg hi2c Channel 0 (pulselen cfg t)).1 = HAL_OK
  · simp [h]
  · simp [h]

/-- With pulses 205 / 307 / 410, throttle 100 gives 307 + 102.5 cut to 409. -/
theorem pulselen_sample_100 : pulselen sampleConfig 100 = 409 := by
  rw [pulselen_hundred sampleConfig (by decide) (by decide) (by decide)]
  decide

/-- Counterexample to C7: the constants 205 ≤ 307 ≤ 410 ≤ 4095 satisfy the
claim's condition, yet throttle 100 passes 409, not `SERVO_PULSE_MAX = 410`. -/
theorem Servo_Set_Throttle_endpoint_counterexample :
    (sampleConfig.SERVO_PULSE_MIN ≤ sampleConfig.SERVO_PULSE_NEUTRAL ∧
      sampleConfig.SERVO_PULSE_NEUTRAL ≤ sampleConfig.SERVO_PULSE_MAX ∧
      sampleConfig.SERVO_PULSE_MAX ≤ 4095) ∧
    pulselen sampleConfig 100 = 409 ∧
    sampleConfig.SERVO_PULSE_MAX = 410 ∧
    (Servo_Set_Throttle sampleConfig (okBus 0) 0 100).2.trace
      ≠ (PCA9685_Set_PWM sampleConfig (okBus 0) 0 0 sampleConfig.SERVO_PULSE_MAX).2.trace := by
  refine ⟨by decide, pulselen_sample_100, rfl, ?_⟩
  rw [(Servo_Set_Throttle_call sampleConfig (okBus 0) 0 100).1, pulselen_sample_100]
  decide

/-- Claim C7, amended. For servo constants with `MIN ≤ NEUTRAL ≤ MAX ≤ 4095`,
`Servo_Set_Throttle` passes `pulselen` as the OFF count of the channel write;
throttle 0 passes `SERVO_PULSE_NEUTRAL`; and throttle -100 passes
`SERVO_PULSE_MIN` together with throttle 100 passing `SERVO_PULSE_MAX` exactly
when the neutral pulse is the midpoint of the two, rounded up:
`MIN + MAX ≤ 2 * NEUTRAL ≤ MIN + MAX + 1`. -/
theorem Servo_Set_Throttle_endpoints (cfg : Config) (hi2c : I2C_HandleTypeDef) (Channel : Nat)
    (h1 : cfg.SERVO_PULSE_MIN ≤ cfg.SERVO_PULSE_NEUTRAL)
    (h2 : cfg.SERVO_PULSE_NEUTRAL ≤ cfg.SERVO_PULSE_MAX)
    (h3 : cfg.SERVO_PULSE_MAX ≤ 4095) :
    (∀ t, (Servo_Set_Throttle cfg hi2c Channel t).2
      = (PCA9685_Set_PWM cfg hi2c Channel 0 (pulselen cfg t)).2) ∧
    pulselen cfg 0 = cfg.SERVO_PULSE_NEUTRAL ∧
    ((pulselen cfg (-100) = cfg.SERVO_PULSE_MIN ∧ pulselen cfg 100 = cfg.SERVO_PULSE_MAX) ↔
      (cfg.SERVO_PULSE_MIN + cfg.SERVO_PULSE_MAX ≤ 2 * cfg.SERVO_PULSE_NEUTRAL ∧
        2 * cfg.SERVO_PULSE_NEUTRAL ≤ cfg.SERVO_PULSE_MIN + cfg.SERVO_PULSE_MAX + 1)) := by
  refine ⟨fun t => (Servo_Set_Throttle_call cfg hi2c Channel t).1,
    pulselen_zero cfg h1 h2 h3, ?_⟩
  rw [pulselen_hundred cfg h1 h2 h3]
  constructor
  · rintro ⟨hlo, hhi⟩
    have hmid : cfg.SERVO_PULSE_MIN + cfg.SERVO_PULSE_MAX ≤ 2 * cfg.SERVO_PULSE_NEUTRAL := by
      omega
    rw [pulselen_minus_hundred cfg h1 h2 h3 (by omega)] at hlo
    omega
  · rintro ⟨hlo, hhi⟩
    rw [pulselen_minus_hundred cfg h1 h2 h3 (by omega)]
    omega

/-- Witness for C7 (amended): constants whose neutral pulse is the midpoint of
the minimum and the maximum (1.1 ms / 1.5 ms / 1.9 ms of a 50 Hz frame in ticks). -/
theorem Servo_Set_Throttle_endpoints_witness :
    (∀ t, (Servo_Set_Throttle { sampleConfig with SERVO_PULSE_MIN := 225, SERVO_PULSE_MAX := 389 }
        (okBus 0) 2 t).2
      = (PCA9685_Set_PWM { sampleConfig with SERVO_PULSE_MIN := 225, SERVO_PULSE_MAX := 389 }
          (okBus 0) 2 0
          (pulselen { sampleConfig with SERVO_PULSE_MIN := 225, SERVO_PULSE_MAX := 389 } t)).2) ∧
    pulselen { sampleConfig with SERVO_PULSE_MIN := 225, SERVO_PULSE_MAX := 389 } 0 = 307 ∧
    ((pulselen { sampleConfig with SERVO_PULSE_MIN := 225, SERVO_PULSE_MAX := 389 } (-100) = 225 ∧
        pulselen { sampleConfig with SERVO_PULSE_MIN := 225, SERVO_PULSE_MAX := 389 } 100 = 389) ↔
      (225 + 389 ≤ 2 * 307 ∧ 2 * 307 ≤ 225 + 389 + 1)) :=
  Servo_Set_Throttle_endpoints { sampleConfig with SERVO_PULSE_MIN := 225, SERVO_PULSE_MAX := 389 }
    (okBus 0) 2 (by decide) (by decide) (by decide)

/-- Claim C8. With `SERVO_PULSE_MIN ≤ SERVO_PULSE_MAX` (both `uint16_t` values),
for every channel and throttle `Servo_Set_Throttle` is exactly the one call
`PCA9685_Set_PWM(Channel, 0, p)`: same final bus state, `HAL_OK` iff that call
returns `HAL_OK`, with `SERVO_PULSE_MIN ≤ p ≤ SERVO_PULSE_MAX`.  A throttle
below -100 gives the same `p` as -100 and a throttle above 100 the same as 100. -/
theorem Servo_Set_Throttle_clamp_delegate (cfg : Config) (hi2c : I2C_HandleTypeDef)
    (Channel : Nat) (Throttle : ℤ)
    (hmin : cfg.SERVO_PULSE_MIN ≤ cfg.SERVO_PULSE_MAX)
    (hmax : cfg.SERVO_PULSE_MAX ≤ 65535) :
    (cfg.SERVO_PULSE_MIN ≤ pulselen cfg Throttle ∧
      pulselen cfg Throttle ≤ cfg.SERVO_PULSE_MAX) ∧
    (Servo_Set_Throttle cfg hi2c Channel Throttle).2
      = (PCA9685_Set_PWM cfg hi2c Channel 0 (pulselen cfg Throttle)).2 ∧
    ((Servo_Set_Throttle cfg hi2c Channel Throttle).1 = HAL_OK ↔
      (PCA9685_Set_PWM cfg hi2c Channel 0 (pulselen cfg Throttle)).1 = HAL_OK) ∧
    (Throttle < -100 → pulselen cfg Throttle = pulselen cfg (-100)) ∧
    (100 < Throttle → pulselen cfg Throttle = pulselen cfg 100) := by
  have e1 : cfg.SERVO_PULSE_MIN % 2 ^ 16 = cfg.SERVO_PULSE_MIN := Nat.mod_eq_of_lt (by omega)
  have e2 : cfg.SERVO_PULSE_MAX % 2 ^ 16 = cfg.SERVO_PULSE_MAX := Nat.mod_eq_of_lt (by omega)
  refine ⟨?_, (Servo_Set_Throttle_call cfg hi2c Channel Throttle).1,
    (Servo_Set_Throttle_call cfg hi2c Channel Throttle).2, ?_, ?_⟩
  · unfold pulselen
    simp only [e1, e2]
    split_ifs <;> omega
  · intro h
    unfold pulselen
    simp [h]
  · intro h
    have h' : ¬ Throttle < -100 := by omega
    unfold pulselen
    simp [h, h']

/-- Witness for C8: throttle 127, the largest `int8_t`. -/
theorem Servo_Set_Throttle_clamp_delegate_witness :
    (205 ≤ pulselen sampleConfig 127 ∧ pulselen sampleConfig 127 ≤ 410) ∧
    (Servo_Set_Throttle sampleConfig (okBus 0) 2 127).2
      = (PCA9685_Set_PWM sampleConfig (okBus 0) 2 0 (pulselen sampleConfig 127)).2 ∧
    ((Servo_Set_Throttle sampleConfig (okBus 0) 2 127).1 = HAL_OK ↔
      (PCA9685_Set_PWM sampleConfig (okBus 0) 2 0 (pulselen sampleConfig 127)).1 = HAL_OK) ∧
    ((127 : ℤ) < -100 → pulselen sampleConfig 127 = pulselen sampleConfig (-100)) ∧
    ((100 : ℤ) < 127 → pulselen sampleConfig 127 = pulselen sampleConfig 100) :=
  Servo_Set_Throttle_clamp_delegate sampleConfig (okBus 0) 2 127 (by decide) (by decide)

/-! ## Initialisation -/

/-- Claim C9. When the device-ready probe fails, `PCA9685_Init` returns
`HAL_ERROR` and the probe is the only call it makes: no register read, no
register write, no delay.  When the probe succeeds, `PCA9685_Init` continues
with `PCA9685_Reset` and nothing else: its final bus state is the one
`PCA9685_Reset` produces after the probe, and it returns `HAL_OK` iff
`PCA9685_Reset` does. -/
theorem PCA9685_Init_presence_gate (cfg : Config) (hi2c : I2C_HandleTypeDef) :
    (hi2c.status hi2c.calls ≠ HAL_OK →
      PCA9685_Init cfg hi2c =
        (HAL_ERROR,
          { hi2c with
            calls := hi2c.calls + 1
            trace := hi2c.trace ++ [Event.isDeviceReady cfg.PCA9685_ADDRESS 1000 1] })) ∧
    (hi2c.status hi2c.calls = HAL_OK →
      (PCA9685_Init cfg hi2c).2 =
        (PCA9685_Reset cfg
          { hi2c with
            calls := hi2c.calls + 1
            trace := hi2c.trace ++ [Event.isDeviceReady cfg.PCA9685_ADDRESS 1000 1] }).2 ∧
      ((PCA9685_Init cfg hi2c).1 = HAL_OK ↔
        (PCA9685_Reset cfg
          { hi2c with
            calls := hi2c.calls + 1
            trace := hi2c.trace ++ [Event.isDeviceReady cfg.PCA9685_ADDRESS 1000 1] }).1
          = HAL_OK)) := by
  constructor
  · intro h
    simp [PCA9685_Init, HAL_I2C_IsDeviceReady, h]
  · intro h
    by_cases hr : (PCA9685_Reset cfg
          { hi2c with
            calls := hi2c.calls + 1
            trace := hi2c.trace ++ [Event.isDeviceReady cfg.PCA9685_ADDRESS 1000 1] }).1
          = HAL_OK
    · simp [PCA9685_Init, HAL_I2C_IsDeviceReady, h, hr]
    · simp [PCA9685_Init, HAL_I2C_IsDeviceReady, h, hr]

/-- Witness for C9: a bus whose first call, the probe, fails; and a bus on which
every call succeeds. -/
theorem PCA9685_Init_presence_gate_witness :
    PCA9685_Init sampleConfig (failAt 0 0) =
        (HAL_ERROR,
          { failAt 0 0 with calls := 1, trace := [Event.isDeviceReady 0x80 1000 1] }) ∧
    ((PCA9685_Init sampleConfig (okBus 0)).2 =
        (PCA9685_Reset sampleConfig
          { okBus 0 with calls := 1, trace := [Event.isDeviceReady 0x80 1000 1] }).2 ∧
      ((PCA9685_Init sampleConfig (okBus 0)).1 = HAL_OK ↔
        (PCA9685_Reset sampleConfig
          { okBus 0 with calls := 1, trace := [Event.isDeviceReady 0x80 1000 1] }).1
          = HAL_OK)) :=
  ⟨(PCA9685_Init_presence_gate sampleConfig (failAt 0 0)).1 (by decide),
    (PCA9685_Init_presence_gate sampleConfig (okBus 0)).2 rfl⟩

/-! ## Channel index -/

/-- Counterexample to C10: for channel 16 with successful writes
`PCA9685_Set_PWM` returns `HAL_OK` after writing the registers `0x46 .. 0x49`. -/
theorem PCA9685_Set_PWM_channel_16 :
    (PCA9685_Set_PWM sampleConfig (okBus 0) 16 0 0).1 = HAL_OK ∧
    (PCA9685_Set_PWM sampleConfig (okBus 0) 16 0 0).2.trace =
      [ Event.memWrite 0x80 0x46 [0], Event.memWrite 0x80 0x47 [0],
        Event.memWrite 0x80 0x48 [0], Event.memWrite 0x80 0x49 [0] ] ∧
    ¬ ((PCA9685_Set_PWM sampleConfig (okBus 0) 16 0 0).1 = HAL_ERROR ∧
        (PCA9685_Set_PWM sampleConfig (okBus 0) 16 0 0).2.trace = []) := by
  decide

/-- Claim C10, amended. `PCA9685_Set_PWM` does not examine the channel index.
For every index, 16..255 included, it starts with the write of the ON low byte
to register `(LED0_ON_L + 4 * Channel) % 256`, whatever the bus answers; and
when the four writes succeed it returns `HAL_OK` after writing the four
registers `(LED0_ON_L + 4 * Channel + k) % 256`, `k = 0..3`. -/
theorem PCA9685_Set_PWM_no_channel_check (cfg : Config) (hi2c : I2C_HandleTypeDef)
    (Channel On Off : Nat) :
    (∃ rest, (PCA9685_Set_PWM cfg hi2c Channel On Off).2.trace =
      hi2c.trace ++
        Event.memWrite cfg.PCA9685_ADDRESS ((cfg.PCA9685_REG_LED0_ON_L + 4 * Channel) % 256)
          [min On 4095 &&& 0xFF] :: rest) ∧
    ((∀ i, i < 4 → hi2c.status (hi2c.calls + i) = HAL_OK) →
      PCA9685_Set_PWM cfg hi2c Channel On Off =
        (HAL_OK,
          { hi2c with
            calls := hi2c.calls + 4
            trace := hi2c.trace ++
              [ Event.memWrite cfg.PCA9685_ADDRESS
                  ((cfg.PCA9685_REG_LED0_ON_L + 4 * Channel + 0) % 256) [min On 4095 &&& 0xFF],
                Event.memWrite cfg.PCA9685_ADDRESS
                  ((cfg.PCA9685_REG_LED0_ON_L + 4 * Channel + 1) % 256) [min On 4095 >>> 8],
                Event.memWrite cfg.PCA9685_ADDRESS
                  ((cfg.PCA9685_REG_LED0_ON_L + 4 * Channel + 2) % 256) [min Off 4095 &&& 0xFF],
                Event.memWrite cfg.PCA9685_ADDRESS
                  ((cfg.PCA9685_REG_LED0_ON_L + 4 * Channel + 3) % 256)
                  [min Off 4095 >>> 8] ] })) := by
  refine ⟨?_, Set_PWM_all_ok cfg hi2c Channel On Off⟩
  have r0 : (cfg.PCA9685_REG_LED0_ON_L + Channel * 4) % 256
      = (cfg.PCA9685_REG_LED0_ON_L + 4 * Channel) % 256 := by omega
  simp only [PCA9685_Set_PWM, HAL_I2C_Mem_Write, clamp4095, r0, and255_lt]
  split_ifs <;> simp

/-- Witness for C10 (amended): channel 63, whose register addresses wrap to
`0x02 .. 0x05`. -/
theorem PCA9685_Set_PWM_no_channel_check_witness :
    PCA9685_Set_PWM sampleConfig (okBus 0) 63 0 0 =
      (HAL_OK,
        { okBus 0 with
          calls := 4
          trace :=
            [ Event.memWrite 0x80 0x02 [0], Event.memWrite 0x80 0x03 [0],
              Event.memWrite 0x80 0x04 [0], Event.memWrite 0x80 0x05 [0] ] }) :=
  (PCA9685_Set_PWM_no_channel_check sampleConfig (okBus 0) 63 0 0).2 (fun _ _ => rfl)


/-! ## Reset -/

/-- Claim C12. With `PCA9685_MODE1_RESTART` a byte, `PCA9685_Reset` issues exactly
one single-byte write of that value to `MODE1`.  If the write succeeds it then
delays 10 ms and returns `HAL_OK`; if the write fails it returns `HAL_ERROR`
with no delay and no further call. -/
theorem PCA9685_Reset_trace (cfg : Config) (hi2c : I2C_HandleTypeDef)
    (hR : cfg.PCA9685_MODE1_RESTART < 256) :
    (hi2c.status hi2c.calls = HAL_OK →
      PCA9685_Reset cfg hi2c =
        (HAL_OK,
          { hi2c with
            calls := hi2c.calls + 1
            trace := hi2c.trace ++
              [ Event.memWrite cfg.PCA9685_ADDRESS cfg.PCA9685_REG_MODE1_ADDR
                  [cfg.PCA9685_MODE1_RESTART],
                Event.delay 10 ] })) ∧
    (hi2c.status hi2c.calls ≠ HAL_OK →
      PCA9685_Reset cfg hi2c =
        (HAL_ERROR,
          { hi2c with
            calls := hi2c.calls + 1
            trace := hi2c.trace ++
              [ Event.memWrite cfg.PCA9685_ADDRESS cfg.PCA9685_REG_MODE1_ADDR
                  [cfg.PCA9685_MODE1_RESTART] ] })) := by
  have hm : cfg.PCA9685_MODE1_RESTART % 256 = cfg.PCA9685_MODE1_RESTART :=
    Nat.mod_eq_of_lt hR
  constructor
  · intro h
    simp [PCA9685_Reset, HAL_I2C_Mem_Write, HAL_Delay, h, hm]
  · intro h
    simp [PCA9685_Reset, HAL_I2C_Mem_Write, HAL_Delay, h, hm]

/-- Witness for C12: a bus that accepts the write and a bus that rejects it. -/
theorem PCA9685_Reset_trace_witness :
    PCA9685_Reset sampleConfig (okBus 0) =
        (HAL_OK,
          { okBus 0 with
            calls := 1
            trace := [ Event.memWrite 0x80 0x00 [0x80], Event.delay 10 ] }) ∧
    PCA9685_Reset sampleConfig (failAt 0 0) =
        (HAL_ERROR,
          { failAt 0 0 with calls := 1, trace := [ Event.memWrite 0x80 0x00 [0x80] ] }) :=
  ⟨(PCA9685_Reset_trace sampleConfig (okBus 0) (by decide)).1 rfl,
    (PCA9685_Reset_trace sampleConfig (failAt 0 0) (by decide)).2 (by decide)⟩

/-! ## Channel write: failures -/

/-- A channel write in which transport call `j` (from 0) is the first that fails. -/
theorem Set_PWM_first_failure (cfg : Config) (hi2c : I2C_HandleTypeDef)
    (Channel On Off : Nat) (j : Nat) (hj : j < 4)
    (hpre : ∀ i, i < j → hi2c.status (hi2c.calls + i) = HAL_OK)
    (hfail : hi2c.status (hi2c.calls + j) ≠ HAL_OK) :
    PCA9685_Set_PWM cfg hi2c Channel On Off =
      (HAL_ERROR,
        { hi2c with
          calls := hi2c.calls + (j + 1)
          trace := hi2c.trace ++ List.take (j + 1)
            [ Event.memWrite cfg.PCA9685_ADDRESS
                ((cfg.PCA9685_REG_LED0_ON_L + 4 * Channel + 0) % 256) [min On 4095 &&& 0xFF],
              Event.memWrite cfg.PCA9685_ADDRESS
                ((cfg.PCA9685_REG_LED0_ON_L + 4 * Channel + 1) % 256) [min On 4095 >>> 8],
              Event.memWrite cfg.PCA9685_ADDRESS
                ((cfg.PCA9685_REG_LED0_ON_L + 4 * Channel + 2) % 256) [min Off 4095 &&& 0xFF],
              Event.memWrite cfg.PCA9685_ADDRESS
                ((cfg.PCA9685_REG_LED0_ON_L + 4 * Channel + 3) % 256) [min Off 4095 >>> 8] ] }) := by
  have r0 : (cfg.PCA9685_REG_LED0_ON_L + Channel * 4) % 256
      = (cfg.PCA9685_REG_LED0_ON_L + 4 * Channel + 0) % 256 := by omega
  have r1 : ((cfg.PCA9685_REG_LED0_ON_L + 4 * Channel + 0) % 256 + 1) % 256
      = (cfg.PCA9685_REG_LED0_ON_L + 4 * Channel + 1) % 256 := by omega
  have r2 : ((cfg.PCA9685_REG_LED0_ON_L + 4 * Channel + 1) % 256 + 1) % 256
      = (cfg.PCA9685_REG_LED0_ON_L + 4 * Channel + 2) % 256 := by omega
  have r3 : ((cfg.PCA9685_REG_LED0_ON_L + 4 * Channel + 2) % 256 + 1) % 256
      = (cfg.PCA9685_REG_LED0_ON_L + 4 * Channel + 3) % 256 := by omega
  interval_cases j
  · simp only [Nat.add_zero] at hfail
    simp only [PCA9685_Set_PWM, HAL_I2C_Mem_Write, clamp4095, r0, and255_lt]
    simp [hfail]
  · have h0 := hpre 0 (by omega)
    simp only [Nat.add_zero] at h0
    simp only [PCA9685_Set_PWM, HAL_I2C_Mem_Write, clamp4095, r0, r1, and255_lt,
      shr8_byte _ (Nat.min_le_right _ _)]
    simp [hfail, h0]
  · have h0 := hpre 0 (by omega)
    have h1 := hpre 1 (by omega)
    simp only [Nat.add_zero] at h0
    simp only [PCA9685_Set_PWM, HAL_I2C_Mem_Write, clamp4095, r0, r1, r2, and255_lt,
      shr8_byte _ (Nat.min_le_right _ _)]
    simp [Nat.add_assoc, hfail, h0, h1]
  · have h0 := hpre 0 (by omega)
    have h1 := hpre 1 (by omega)
    have h2 := hpre 2 (by omega)
    simp only [Nat.add_zero] at h0
    simp only [PCA9685_Set_PWM, HAL_I2C_Mem_Write, clamp4095, r0, r1, r2, r3, and255_lt,
      shr8_byte _ (Nat.min_le_right _ _)]
    simp [Nat.add_assoc, hfail, h0, h1, h2]

/-- Claim C13. For a channel in 0..15, if write `j` (from 0) of the four byte
writes is the first to fail, `PCA9685_Set_PWM` performs exactly the writes
`0..j` in the order ON-low, ON-high, OFF-low, OFF-high, none of the later ones,
and returns `HAL_ERROR`; it returns `HAL_OK` iff all four writes succeed. -/
theorem PCA9685_Set_PWM_short_circuit (cfg : Config) (hi2c : I2C_HandleTypeDef)
    (Channel On Off : Nat) (hch : Channel ≤ 15)
    (hreg : cfg.PCA9685_REG_LED0_ON_L + 63 ≤ 255) :
    (∀ j, j < 4 →
      (∀ i, i < j → hi2c.status (hi2c.calls + i) = HAL_OK) →
      hi2c.status (hi2c.calls + j) ≠ HAL_OK →
        PCA9685_Set_PWM cfg hi2c Channel On Off =
          (HAL_ERROR,
            { hi2c with
              calls := hi2c.calls + (j + 1)
              trace := hi2c.trace ++ List.take (j + 1)
                [ Event.memWrite cfg.PCA9685_ADDRESS
                    (cfg.PCA9685_REG_LED0_ON_L + 4 * Channel + 0) [min On 4095 &&& 0xFF],
                  Event.memWrite cfg.PCA9685_ADDRESS
                    (cfg.PCA9685_REG_LED0_ON_L + 4 * Channel + 1) [min On 4095 >>> 8],
                  Event.memWrite cfg.PCA9685_ADDRESS
                    (cfg.PCA9685_REG_LED0_ON_L + 4 * Channel + 2) [min Off 4095 &&& 0xFF],
                  Event.memWrite cfg.PCA9685_ADDRESS
                    (cfg.PCA9685_REG_LED0_ON_L + 4 * Channel + 3) [min Off 4095 >>> 8] ] })) ∧
    ((PCA9685_Set_PWM cfg hi2c Channel On Off).1 = HAL_OK ↔
      ∀ i, i < 4 → hi2c.status (hi2c.calls + i) = HAL_OK) := by
  constructor
  · intro j hj hpre hfail
    rw [Set_PWM_first_failure cfg hi2c Channel On Off j hj hpre hfail,
      Nat.mod_eq_of_lt (by omega : cfg.PCA9685_REG_LED0_ON_L + 4 * Channel + 0 < 256),
      Nat.mod_eq_of_lt (by omega : cfg.PCA9685_REG_LED0_ON_L + 4 * Channel + 1 < 256),
      Nat.mod_eq_of_lt (by omega : cfg.PCA9685_REG_LED0_ON_L + 4 * Channel + 2 < 256),
      Nat.mod_eq_of_lt (by omega : cfg.PCA9685_REG_LED0_ON_L + 4 * Channel + 3 < 256)]
  · constructor
    · intro hret
      by_contra hne
      obtain ⟨j, hj, hpre, hfail⟩ := first_failure_exists hi2c 4 hne
      rw [Set_PWM_first_failure cfg hi2c Channel On Off j hj hpre hfail] at hret
      exact HAL_StatusTypeDef.noConfusion hret
    · intro hok
      rw [Set_PWM_all_ok cfg hi2c Channel On Off hok]

/-- Witness for C13: channel 3, the OFF-low write (write 2) fails. -/
theorem PCA9685_Set_PWM_short_circuit_witness :
    PCA9685_Set_PWM sampleConfig (failAt 2 0) 3 100 2048 =
      (HAL_ERROR,
        { failAt 2 0 with
          calls := 3
          trace :=
            [ Event.memWrite 0x80 18 [100], Event.memWrite 0x80 19 [0],
              Event.memWrite 0x80 20 [0] ] }) :=
  (PCA9685_Set_PWM_short_circuit sampleConfig (failAt 2 0) 3 100 2048 (by decide)
    (by decide)).1 2 (by decide) (by decide) (by decide)

/-! ## Channel write: register contents -/

/-- A 16-bit count is recovered from its low byte and its high byte. -/
theorem lo_hi_join (n : Nat) : (n &&& 0xFF) ||| ((n >>> 8) <<< 8) = n := by
  apply Nat.eq_of_testBit_eq
  intro i
  have e : (0xFF : Nat) = 2 ^ 8 - 1 := by norm_num
  rw [Nat.testBit_lor, Nat.testBit_land, e, Nat.testBit_two_pow_sub_one,
    Nat.testBit_shiftLeft, Nat.testBit_shiftRight]
  by_cases h8 : i < 8
  · have h : ¬ i ≥ 8 := by omega
    simp [h8, h]
  · have h : i ≥ 8 := by omega
    have e2 : 8 + (i - 8) = i := by omega
    simp [h8, h, e2]

/-- Claim C11. For a channel in 0..15 and `On`, `Off` in 0..4095, after a
successful `PCA9685_Set_PWM` the register file that received its writes holds
bytes `b0..b3` at `LED0_ON_L + 4 * Channel + 0..3` with `b0 ||| (b1 <<< 8) = On`
and `b2 ||| (b3 <<< 8) = Off`, whatever the registers held before. -/
theorem PCA9685_Set_PWM_round_trip (cfg : Config) (hi2c : I2C_HandleTypeDef)
    (rf : Nat → Nat) (Channel On Off : Nat) (hch : Channel ≤ 15)
    (hreg : cfg.PCA9685_REG_LED0_ON_L + 63 ≤ 255)
    (hon : On ≤ 4095) (hoff : Off ≤ 4095)
    (hok : ∀ i, i < 4 → hi2c.status (hi2c.calls + i) = HAL_OK) :
    (PCA9685_Set_PWM cfg hi2c Channel On Off).1 = HAL_OK ∧
    replay rf (List.drop hi2c.trace.length (PCA9685_Set_PWM cfg hi2c Channel On Off).2.trace)
        (cfg.PCA9685_REG_LED0_ON_L + 4 * Channel + 0) |||
      (replay rf (List.drop hi2c.trace.length (PCA9685_Set_PWM cfg hi2c Channel On Off).2.trace)
        (cfg.PCA9685_REG_LED0_ON_L + 4 * Channel + 1) <<< 8) = On ∧
    replay rf (List.drop hi2c.trace.length (PCA9685_Set_PWM cfg hi2c Channel On Off).2.trace)
        (cfg.PCA9685_REG_LED0_ON_L + 4 * Channel + 2) |||
      (replay rf (List.drop hi2c.trace.length (PCA9685_Set_PWM cfg hi2c Channel On Off).2.trace)
        (cfg.PCA9685_REG_LED0_ON_L + 4 * Channel + 3) <<< 8) = Off := by
  rw [Set_PWM_all_ok cfg hi2c Channel On Off hok,
    Nat.mod_eq_of_lt (by omega : cfg.PCA9685_REG_LED0_ON_L + 4 * Channel + 0 < 256),
    Nat.mod_eq_of_lt (by omega : cfg.PCA9685_REG_LED0_ON_L + 4 * Channel + 1 < 256),
    Nat.mod_eq_of_lt (by omega : cfg.PCA9685_REG_LED0_ON_L + 4 * Channel + 2 < 256),
    Nat.mod_eq_of_lt (by omega : cfg.PCA9685_REG_LED0_ON_L + 4 * Channel + 3 < 256)]
  simp only [List.drop_left, replay, storeBytes, Nat.min_eq_left hon, Nat.min_eq_left hoff]
  refine ⟨trivial, ?_, ?_⟩
  · simp [Function.update_apply, lo_hi_join]
  · simp [Function.update_apply, lo_hi_join]

/-- Witness for C11: `On = 100`, `Off = 2048` on channel 5, registers cleared. -/
theorem PCA9685_Set_PWM_round_trip_witness :
    (PCA9685_Set_PWM sampleConfig (okBus 0) 5 100 2048).1 = HAL_OK ∧
    replay (fun _ => 0)
        (List.drop 0 (PCA9685_Set_PWM sampleConfig (okBus 0) 5 100 2048).2.trace) (6 + 4 * 5 + 0) |||
      (replay (fun _ => 0)
        (List.drop 0 (PCA9685_Set_PWM sampleConfig (okBus 0) 5 100 2048).2.trace) (6 + 4 * 5 + 1)
          <<< 8) = 100 ∧
    replay (fun _ => 0)
        (List.drop 0 (PCA9685_Set_PWM sampleConfig (okBus 0) 5 100 2048).2.trace) (6 + 4 * 5 + 2) |||
      (replay (fun _ => 0)
        (List.drop 0 (PCA9685_Set_PWM sampleConfig (okBus 0) 5 100 2048).2.trace) (6 + 4 * 5 + 3)
          <<< 8) = 2048 :=
  PCA9685_Set_PWM_round_trip sampleConfig (okBus 0) (fun _ => 0) 5 100 2048 (by decide)
    (by decide) (by decide) (by decide) (fun _ _ => rfl)

/-! ## Prescale truncation -/

/-- Truncation toward zero of a non-negative value is its floor. -/
theorem ftrunc_of_nonneg (x : ℚ) (h : 0 ≤ x) : ftrunc x = ⌊x⌋ := by
  unfold ftrunc
  rw [if_pos h]

/-- Rounding a value in `[0, 2 ^ 24)` to binary32 does not cross an integer: the
result lies between the integer part of the value and the next integer. -/
theorem f32_floor_bounds (y : ℚ) (hy0 : 0 ≤ y) (hy : y < (2 : ℚ) ^ (24 : ℤ)) :
    ((⌊y⌋ : ℤ) : ℚ) ≤ f32 y ∧ f32 y ≤ ((⌊y⌋ : ℤ) : ℚ) + 1 := by
  have h2 : (2 : ℚ) ≠ 0 := by norm_num
  rcases eq_or_lt_of_le hy0 with h | hypos
  · rw [← h, f32_zero]
    simp
  have habs : |y| = y := abs_of_pos hypos
  have hu0 : ulpExp y ≤ 0 := by
    have := ulpExp_le y 24 (by norm_num) (ne_of_gt hypos) (by rw [habs]; exact hy)
    omega
  obtain ⟨k, hk⟩ := Int.le.dest hu0
  have hu : (0 : ℚ) < (2 : ℚ) ^ ulpExp y := zpow_pos (by norm_num) _
  have hpk : (2 : ℚ) ^ k * (2 : ℚ) ^ ulpExp y = 1 := by
    rw [← zpow_natCast, ← zpow_add₀ h2, add_comm, hk, zpow_zero]
  have hlo : ((⌊y⌋ * 2 ^ k : ℤ) : ℚ) ≤ y / (2 : ℚ) ^ ulpExp y := by
    rw [le_div_iff₀ hu]
    push_cast
    rw [mul_assoc, hpk, mul_one]
    exact Int.floor_le y
  have hhi : y / (2 : ℚ) ^ ulpExp y ≤ (((⌊y⌋ + 1) * 2 ^ k : ℤ) : ℚ) := by
    rw [div_le_iff₀ hu]
    push_cast
    rw [mul_assoc, hpk, mul_one]
    exact le_of_lt (Int.lt_floor_add_one y)
  have h1 := roundEven_ge _ _ hlo
  have h2' := roundEven_le _ _ hhi
  have h1q : ((⌊y⌋ * 2 ^ k : ℤ) : ℚ) ≤ ((roundEven (y / (2 : ℚ) ^ ulpExp y) : ℤ) : ℚ) := by
    exact_mod_cast h1
  have h2q : ((roundEven (y / (2 : ℚ) ^ ulpExp y) : ℤ) : ℚ) ≤ (((⌊y⌋ + 1) * 2 ^ k : ℤ) : ℚ) := by
    exact_mod_cast h2'
  have e1 : ((⌊y⌋ : ℤ) : ℚ) = ((⌊y⌋ * 2 ^ k : ℤ) : ℚ) * (2 : ℚ) ^ ulpExp y := by
    push_cast
    rw [mul_assoc, hpk, mul_one]
  have e2 : ((⌊y⌋ : ℤ) : ℚ) + 1 = (((⌊y⌋ + 1) * 2 ^ k : ℤ) : ℚ) * (2 : ℚ) ^ ulpExp y := by
    push_cast
    rw [mul_assoc, hpk, mul_one]
  unfold f32
  constructor
  · rw [e1]
    exact mul_le_mul_of_nonneg_right h1q (le_of_lt hu)
  · rw [e2]
    exact mul_le_mul_of_nonneg_right h2q (le_of_lt hu)

/-- The integer part of a value in `[0, 2 ^ 24)` rounded to binary32 is the
integer part of the value, or one more. -/
theorem floor_f32_bounds (y : ℚ) (hy0 : 0 ≤ y) (hy : y < (2 : ℚ) ^ (24 : ℤ)) :
    ⌊y⌋ ≤ ⌊f32 y⌋ ∧ ⌊f32 y⌋ ≤ ⌊y⌋ + 1 := by
  have h := f32_floor_bounds y hy0 hy
  constructor
  · exact Int.le_floor.mpr h.1
  · have h1 := Int.floor_le (f32 y)
    have h2 : ((⌊f32 y⌋ : ℤ) : ℚ) ≤ ((⌊y⌋ + 1 : ℤ) : ℚ) := by
      push_cast
      linarith [h.2]
    exact_mod_cast h2

/-- The exact prescale byte in integer terms: the integer part of the exact
quotient minus 1, clamped. -/
theorem prescaleExact_eq (cfg : Config) (f : ℚ) :
    prescaleExact cfg f
      = max (cfg.PCA9685_PRESCALE_MIN : ℤ) (min (cfg.PCA9685_PRESCALE_MAX : ℤ)
          (⌊(cfg.PCA9685_INTERNAL_FREQ : ℚ) / (max 1 (min f 3500) * 4096)⌋ - 1)) := by
  have hm : Monotone (Int.floor : ℚ → ℤ) := Int.floor_mono
  have h0 : (0 : ℚ) ≤ max (cfg.PCA9685_PRESCALE_MIN : ℚ) (min (cfg.PCA9685_PRESCALE_MAX : ℚ)
      ((cfg.PCA9685_INTERNAL_FREQ : ℚ) / (max 1 (min f 3500) * 4096) - 1)) :=
    le_trans (Nat.cast_nonneg _) (le_max_left _ _)
  unfold prescaleExact
  rw [ftrunc_of_nonneg _ h0, hm.map_max, hm.map_min, Int.floor_natCast, Int.floor_natCast,
    Int.floor_sub_one]

/-- The frequency `16666667 / 16384` (1017.25..) times 4096 is a binary32 number. -/
theorem f32_sample_product :
    f32 ((max 1 (min (16666667 / 16384) 3500) : ℚ) * 4096) = 16666667 / 4 := by
  have h := f32_exact 16666667 (-2) (by norm_num) (by norm_num)
  norm_num at h ⊢
  exact h

/-- The binary32 division rounds `25000000 / 4166666.75 = 5.99999988` up to 6. -/
theorem f32_sample_quot : f32 ((25000000 : ℚ) / (16666667 / 4)) = 6 := by
  have hr : roundEven ((25000000 : ℚ) / (16666667 / 4) / (2 : ℚ) ^ ((2 : ℤ) - 23)) = 12582912 := by
    apply roundEven_eq
    rw [abs_lt]
    norm_num
  rw [f32_eval _ 2 (by norm_num) (by rw [abs_of_nonneg (by norm_num)]; norm_num)
    (by rw [abs_of_nonneg (by norm_num)]; norm_num), hr]
  norm_num

/-- At `16666667 / 16384` Hz the binary32 quotient of line 51 is 6. -/
theorem prescaleQuot_sample_1017 : prescaleQuot sampleConfig (16666667 / 16384) = 6 := by
  rw [prescaleQuot_eq]
  simp only [sampleConfig]
  push_cast
  rw [f32_sample_freq, f32_sample_product, f32_sample_quot]

/-- At `16666667 / 16384` Hz the driver computes the prescale byte 5. -/
theorem prescale_sample_1017 : prescale sampleConfig (16666667 / 16384) = 5 := by
  have h := prescale_eq_quot_floor sampleConfig (16666667 / 16384) (by decide) (by decide)
    (by decide)
  rw [prescaleQuot_sample_1017] at h
  have e : max ((sampleConfig.PCA9685_PRESCALE_MIN : ℕ) : ℤ)
      (min ((sampleConfig.PCA9685_PRESCALE_MAX : ℕ) : ℤ) (⌊(6 : ℚ)⌋ - 1)) = 5 := by
    have : ⌊(6 : ℚ)⌋ = 6 := by
      rw [Int.floor_eq_iff]
      norm_num
    rw [this]
    decide
  rw [e] at h
  exact_mod_cast h

/-- At `16666667 / 16384` Hz the exact value `25000000 / (f * 4096) - 1` is
4.99999988, whose truncation is 4. -/
theorem prescaleExact_sample_1017 : prescaleExact sampleConfig (16666667 / 16384) = 4 := by
  have e : ⌊((sampleConfig.PCA9685_INTERNAL_FREQ : ℕ) : ℚ)
      / (max 1 (min (16666667 / 16384) 3500) * 4096)⌋ = 5 := by
    rw [Int.floor_eq_iff]
    simp only [sampleConfig]
    norm_num
  rw [prescaleExact_eq, e]
  decide

/-- Counterexample to C14: with a 25 MHz oscillator and the prescale range
3..255, at the binary32 frequency `16666667 / 16384` (1017.25..) the driver
writes 5, while the truncation of the exact value 4.99999988 is 4: the binary32
division rounds the quotient 5.99999988 up to 6 before the conversion. -/
theorem prescale_not_exact_truncation :
    prescale sampleConfig (16666667 / 16384) = 5 ∧
    prescaleExact sampleConfig (16666667 / 16384) = 4 ∧
    ((prescale sampleConfig (16666667 / 16384) : Nat) : ℤ)
      ≠ prescaleExact sampleConfig (16666667 / 16384) := by
  refine ⟨prescale_sample_1017, prescaleExact_sample_1017, ?_⟩
  rw [prescale_sample_1017, prescaleExact_sample_1017]
  decide

/-- Claim C14, amended. With `PRESCALE_MIN ≤ PRESCALE_MAX ≤ 255` and `f'` the
frequency clamped to `[1, 3500]`, the prescale byte is the truncation toward zero
of the binary32 value `prescaleval` that line 51 computes, which is
`INTERNAL_FREQ / (f' * 4096) - 1` with each operation rounded to binary32, after
that value has been clamped to `[PRESCALE_MIN, PRESCALE_MAX]`: the clamp acts on
the fractional value and the byte `p` satisfies `p ≤ clamped value < p + 1`, so
the conversion rounds nothing up.  The binary32 division can: when the
oscillator frequency fits an `int` and is a binary32 number, and `f' * 4096` is a
binary32 number, the byte is the truncation of the clamped exact value or that
truncation plus one. -/
theorem prescale_truncation (cfg : Config) (f : ℚ)
    (hmin : cfg.PCA9685_PRESCALE_MIN ≤ cfg.PCA9685_PRESCALE_MAX)
    (hmax : cfg.PCA9685_PRESCALE_MAX ≤ 255) :
    prescaleval cfg f
      = f32 (f32 (f32 (cfg.PCA9685_INTERNAL_FREQ : ℚ) / f32 (max 1 (min f 3500) * 4096)) - 1) ∧
    ((prescale cfg f : Nat) : ℤ)
      = ftrunc (max (cfg.PCA9685_PRESCALE_MIN : ℚ) (min (cfg.PCA9685_PRESCALE_MAX : ℚ)
          (prescaleval cfg f))) ∧
    ((prescale cfg f : Nat) : ℚ)
      ≤ max (cfg.PCA9685_PRESCALE_MIN : ℚ) (min (cfg.PCA9685_PRESCALE_MAX : ℚ)
          (prescaleval cfg f)) ∧
    max (cfg.PCA9685_PRESCALE_MIN : ℚ) (min (cfg.PCA9685_PRESCALE_MAX : ℚ)
          (prescaleval cfg f))
      < ((prescale cfg f : Nat) : ℚ) + 1 ∧
    (cfg.PCA9685_INTERNAL_FREQ < 2 ^ 31 →
      f32 (cfg.PCA9685_INTERNAL_FREQ : ℚ) = (cfg.PCA9685_INTERNAL_FREQ : ℚ) →
      f32 (max 1 (min f 3500) * 4096) = max 1 (min f 3500) * 4096 →
      prescaleExact cfg f ≤ ((prescale cfg f : Nat) : ℤ) ∧
      ((prescale cfg f : Nat) : ℤ) ≤ prescaleExact cfg f + 1) := by
  have h := (prescale_eq_floor cfg f hmin hmax).1
  have h0 : (0 : ℚ) ≤ max (cfg.PCA9685_PRESCALE_MIN : ℚ) (min (cfg.PCA9685_PRESCALE_MAX : ℚ)
      (prescaleval cfg f)) :=
    le_trans (Nat.cast_nonneg _) (le_max_left _ _)
  have hq : ((prescale cfg f : Nat) : ℚ)
      = ((⌊max (cfg.PCA9685_PRESCALE_MIN : ℚ) (min (cfg.PCA9685_PRESCALE_MAX : ℚ)
          (prescaleval cfg f))⌋ : ℤ) : ℚ) := by
    rw [← h]
    norm_cast
  refine ⟨?_, ?_, ?_, ?_, ?_⟩
  · unfold prescaleval
    rw [prescaleQuot_eq]
  · rw [ftrunc_of_nonneg _ h0]
    exact h
  · rw [hq]
    exact Int.floor_le _
  · rw [hq]
    exact Int.lt_floor_add_one _
  · intro hF31 eF hfl
    have hb := prescaleQuot_arg_bound cfg f hF31
    have hfl2 := floor_f32_bounds _ hb.1 hb.2
    rw [prescale_eq_quot_floor cfg f hF31 hmin hmax, prescaleQuot_eq, prescaleExact_eq]
    rw [eF, hfl] at hfl2 ⊢
    omega

/-- The frequency 60 Hz times 4096 is a binary32 number. -/
theorem f32_sample_60 :
    f32 ((max 1 (min 60 3500) : ℚ) * 4096) = max 1 (min 60 3500) * 4096 := by
  have h := f32_natCast 245760 (by norm_num)
  norm_num at h ⊢
  exact h

/-- The oscillator frequency of the sample constants is a binary32 number. -/
theorem f32_sample_freq_cast : f32 ((25000000 : ℕ) : ℚ) = ((25000000 : ℕ) : ℚ) := by
  have h := f32_sample_freq
  norm_num at h ⊢
  exact h

/-- Witness for C14 (amended): 60 Hz, where the clamped value is 100.72.. -/
theorem prescale_truncation_witness :
    prescaleval sampleConfig 60
      = f32 (f32 (f32 ((25000000 : ℕ) : ℚ) / f32 (max 1 (min 60 3500) * 4096)) - 1) ∧
    ((prescale sampleConfig 60 : Nat) : ℤ)
      = ftrunc (max ((3 : ℕ) : ℚ) (min ((255 : ℕ) : ℚ) (prescaleval sampleConfig 60))) ∧
    ((prescale sampleConfig 60 : Nat) : ℚ)
      ≤ max ((3 : ℕ) : ℚ) (min ((255 : ℕ) : ℚ) (prescaleval sampleConfig 60)) ∧
    max ((3 : ℕ) : ℚ) (min ((255 : ℕ) : ℚ) (prescaleval sampleConfig 60))
      < ((prescale sampleConfig 60 : Nat) : ℚ) + 1 ∧
    prescaleExact sampleConfig 60 ≤ ((prescale sampleConfig 60 : Nat) : ℤ) ∧
    ((prescale sampleConfig 60 : Nat) : ℤ) ≤ prescaleExact sampleConfig 60 + 1 :=
  ⟨(prescale_truncation sampleConfig 60 (by decide) (by decide)).1,
    (prescale_truncation sampleConfig 60 (by decide) (by decide)).2.1,
    (prescale_truncation sampleConfig 60 (by decide) (by decide)).2.2.1,
    (prescale_truncation sampleConfig 60 (by decide) (by decide)).2.2.2.1,
    (prescale_truncation sampleConfig 60 (by decide) (by decide)).2.2.2.2
      (by decide) f32_sample_freq_cast f32_sample_60⟩

/-! ## Throttle: linearity and monotonicity -/

/-- The throttle clamp: a throttle outside `[-100, 100]` gives the pulse length
of the nearest bound. -/
theorem pulselen_clamp (cfg : Config) (t : ℤ) :
    pulselen cfg t = pulselen cfg (max (-100) (min 100 t)) := by
  by_cases h1 : t < -100
  · have e : max (-100) (min 100 t) = -100 := by omega
    rw [e]
    unfold pulselen
    simp [h1]
  · by_cases h2 : 100 < t
    · have e : max (-100) (min 100 t) = 100 := by omega
      rw [e]
      unfold pulselen
      simp [h1, h2]
    · have e : max (-100) (min 100 t) = t := by omega
      rw [e]

/-- When `MAX ≤ 2 * NEUTRAL + MIN + 1`, the exact value of line 147 is above -1
for every throttle from -100 upward: its truncation is not negative. -/
theorem pulse_trunc_nonneg (cfg : Config) (t : ℤ) (hlo : -100 ≤ t)
    (hW0 : cfg.SERVO_PULSE_MIN ≤ cfg.SERVO_PULSE_MAX)
    (h4 : cfg.SERVO_PULSE_MAX ≤ 2 * cfg.SERVO_PULSE_NEUTRAL + cfg.SERVO_PULSE_MIN + 1) :
    0 ≤ ftrunc ((cfg.SERVO_PULSE_NEUTRAL : ℚ)
        + ((t * ((cfg.SERVO_PULSE_MAX : ℤ) - (cfg.SERVO_PULSE_MIN : ℤ)) : ℤ) : ℚ) / 200) := by
  have hW : (0 : ℤ) ≤ (cfg.SERVO_PULSE_MAX : ℤ) - (cfg.SERVO_PULSE_MIN : ℤ) := by omega
  have h2 : -100 * ((cfg.SERVO_PULSE_MAX : ℤ) - (cfg.SERVO_PULSE_MIN : ℤ))
      ≤ t * ((cfg.SERVO_PULSE_MAX : ℤ) - (cfg.SERVO_PULSE_MIN : ℤ)) :=
    mul_le_mul_of_nonneg_right hlo hW
  rw [pulse_expr_eq, ftrunc_div200]
  split_ifs <;> omega

/-- The pulse length is monotone on `[-100, 100]`. -/
theorem pulselen_mono_in_range (cfg : Config) (s t : ℤ)
    (h1 : cfg.SERVO_PULSE_MIN ≤ cfg.SERVO_PULSE_NEUTRAL)
    (h2 : cfg.SERVO_PULSE_NEUTRAL ≤ cfg.SERVO_PULSE_MAX)
    (h3 : cfg.SERVO_PULSE_MAX ≤ 4095)
    (h4 : cfg.SERVO_PULSE_MAX ≤ 2 * cfg.SERVO_PULSE_NEUTRAL + cfg.SERVO_PULSE_MIN + 1)
    (hs : -100 ≤ s) (hst : s ≤ t) (ht : t ≤ 100) :
    pulselen cfg s ≤ pulselen cfg t := by
  have hW : (0 : ℤ) ≤ (cfg.SERVO_PULSE_MAX : ℤ) - (cfg.SERVO_PULSE_MIN : ℤ) := by omega
  have hsW : s * ((cfg.SERVO_PULSE_MAX : ℤ) - (cfg.SERVO_PULSE_MIN : ℤ))
      ≤ t * ((cfg.SERVO_PULSE_MAX : ℤ) - (cfg.SERVO_PULSE_MIN : ℤ)) :=
    mul_le_mul_of_nonneg_right hst hW
  have hb1 := pulse_product_bound cfg s hs (by omega) (by omega) h3
  have hb2 := pulse_product_bound cfg t (by omega) ht (by omega) h3
  rw [pulselen_trunc cfg s hs (by omega) (by omega) h3 (by omega)
      (pulse_trunc_nonneg cfg s hs (by omega) h4),
    pulselen_trunc cfg t (by omega) ht (by omega) h3 (by omega)
      (pulse_trunc_nonneg cfg t (by omega) (by omega) h4)]
  simp only [pulse_expr_eq, ftrunc_div200]
  split_ifs <;> omega

/-- Truncation toward zero leaves an integer as it is. -/
theorem ftrunc_intCast (n : ℤ) : ftrunc (n : ℚ) = n := by
  unfold ftrunc
  split_ifs
  · exact Int.floor_intCast n
  · exact Int.ceil_intCast n

/-- With pulses 10 / 20 / 4000 the float value of line 147 at throttle -100 is
`20 - 1995 = -1975`. -/
theorem pulseval_wrap_minus_hundred : pulseval wrapConfig (-100) = -1975 := by
  rw [pulseval_exact wrapConfig (-100) (-1995) (by decide) (by decide) (by decide) (by decide)
    (by decide) (by decide)]
  simp only [wrapConfig]
  norm_num

/-- With pulses 10 / 20 / 4000 and a wrapping conversion, throttle -100 gives the
pulse length 4000: the stored value is `65536 - 1975 = 63561`, which the clamp
lowers to `SERVO_PULSE_MAX`. -/
theorem pulselen_wrap_minus_hundred : pulselen wrapConfig (-100) = 4000 := by
  have e : ftrunc (-1975 : ℚ) = -1975 := by
    have := ftrunc_intCast (-1975)
    simpa using this
  have hc : floatToUInt wrapConfig.outOfRangeConv 16 (pulseval wrapConfig (-100)) = 63561 := by
    rw [pulseval_wrap_minus_hundred]
    unfold floatToUInt
    rw [e]
    show (if (0 : ℤ) ≤ -1975 ∧ (-1975 : ℤ) < 2 ^ 16 then (-1975 : ℤ).toNat
      else wrapConv 16 (-1975) % 2 ^ 16) = 63561
    unfold wrapConv
    rw [e]
    decide
  have h1 : ¬ ((-100 : ℤ) < -100) := by decide
  have h2 : ¬ ((-100 : ℤ) > 100) := by decide
  unfold pulselen
  simp only [if_neg h1, if_neg h2, hc]
  decide

/-- With pulses 10 / 20 / 4000, throttle 0 gives the neutral pulse 20. -/
theorem pulselen_wrap_zero : pulselen wrapConfig 0 = 20 :=
  pulselen_zero wrapConfig (by decide) (by decide) (by decide)

/-- Counterexample to C15: the constants 10 ≤ 20 ≤ 4000 ≤ 4095 satisfy the
claim's condition.  At throttle -100 the float value of line 147 is -1975, whose
conversion to `uint16_t` C leaves undefined.  Where that conversion wraps, the
pulse length is 4000: it is not the truncated value clamped to `[10, 4000]`,
which is 10, and it exceeds the pulse length 20 of the larger throttle 0. -/
theorem Servo_Set_Throttle_negative_pulse :
    (wrapConfig.SERVO_PULSE_MIN ≤ wrapConfig.SERVO_PULSE_NEUTRAL ∧
      wrapConfig.SERVO_PULSE_NEUTRAL ≤ wrapConfig.SERVO_PULSE_MAX ∧
      wrapConfig.SERVO_PULSE_MAX ≤ 4095) ∧
    pulseval wrapConfig (-100) = -1975 ∧
    pulselen wrapConfig (-100) = 4000 ∧
    pulselen wrapConfig 0 = 20 ∧
    ¬ (pulselen wrapConfig (-100) ≤ pulselen wrapConfig 0) ∧
    ((pulselen wrapConfig (-100) : Nat) : ℤ) ≠
      max (wrapConfig.SERVO_PULSE_MIN : ℤ) (min (wrapConfig.SERVO_PULSE_MAX : ℤ)
        (ftrunc ((wrapConfig.SERVO_PULSE_NEUTRAL : ℚ)
          + (((-100 : ℤ) * ((wrapConfig.SERVO_PULSE_MAX : ℤ)
              - (wrapConfig.SERVO_PULSE_MIN : ℤ)) : ℤ) : ℚ) / 200))) := by
  refine ⟨by decide, pulseval_wrap_minus_hundred, pulselen_wrap_minus_hundred,
    pulselen_wrap_zero, ?_, ?_⟩
  · rw [pulselen_wrap_minus_hundred, pulselen_wrap_zero]
    decide
  · rw [pulselen_wrap_minus_hundred, pulse_expr_eq, ftrunc_div200]
    decide

/-- Claim C15, amended. For servo constants with `MIN ≤ NEUTRAL ≤ MAX ≤ 4095`
and `MAX - MIN ≤ 2 * NEUTRAL + 1`, so that the float value of line 147 stays
above -1 and its conversion to `uint16_t` is defined, `Servo_Set_Throttle` passes
`pulselen` to the channel write; for a throttle `t` in `[-100, 100]` it is the
truncation of `NEUTRAL + t * (MAX - MIN) / 200` clamped to `[MIN, MAX]`; and
`t1 ≤ t2` implies that the pulse length for `t1` is at most the one for `t2`.
This holds whatever an out-of-range conversion would yield. -/
theorem Servo_Set_Throttle_linear_monotone (cfg : Config)
    (h1 : cfg.SERVO_PULSE_MIN ≤ cfg.SERVO_PULSE_NEUTRAL)
    (h2 : cfg.SERVO_PULSE_NEUTRAL ≤ cfg.SERVO_PULSE_MAX)
    (h3 : cfg.SERVO_PULSE_MAX ≤ 4095)
    (h4 : cfg.SERVO_PULSE_MAX ≤ 2 * cfg.SERVO_PULSE_NEUTRAL + cfg.SERVO_PULSE_MIN + 1) :
    (∀ hi2c Channel t, (Servo_Set_Throttle cfg hi2c Channel t).2
      = (PCA9685_Set_PWM cfg hi2c Channel 0 (pulselen cfg t)).2) ∧
    (∀ t : ℤ, -100 ≤ t → t ≤ 100 →
      ((pulselen cfg t : Nat) : ℤ) =
        max (cfg.SERVO_PULSE_MIN : ℤ) (min (cfg.SERVO_PULSE_MAX : ℤ)
          (ftrunc ((cfg.SERVO_PULSE_NEUTRAL : ℚ)
            + ((t * ((cfg.SERVO_PULSE_MAX : ℤ) - (cfg.SERVO_PULSE_MIN : ℤ)) : ℤ) : ℚ) / 200)))) ∧
    (∀ t1 t2 : ℤ, t1 ≤ t2 → pulselen cfg t1 ≤ pulselen cfg t2) := by
  refine ⟨fun hi2c Channel t => (Servo_Set_Throttle_call cfg hi2c Channel t).1, ?_, ?_⟩
  · intro t hlo hhi
    have hnn := pulse_trunc_nonneg cfg t hlo (by omega) h4
    rw [pulselen_trunc cfg t hlo hhi (by omega) h3 (by omega) hnn]
    generalize ftrunc ((cfg.SERVO_PULSE_NEUTRAL : ℚ)
      + ((t * ((cfg.SERVO_PULSE_MAX : ℤ) - (cfg.SERVO_PULSE_MIN : ℤ)) : ℤ) : ℚ) / 200) = q at hnn ⊢
    omega
  · intro t1 t2 h12
    rw [pulselen_clamp cfg t1, pulselen_clamp cfg t2]
    exact pulselen_mono_in_range cfg _ _ h1 h2 h3 h4 (by omega) (by omega) (by omega)

/-- Witness for C15 (amended): throttle 50, and the two extreme `int8_t`
throttles. -/
theorem Servo_Set_Throttle_linear_monotone_witness :
    ((pulselen sampleConfig 50 : Nat) : ℤ) =
        max ((205 : ℕ) : ℤ) (min ((410 : ℕ) : ℤ)
          (ftrunc (((307 : ℕ) : ℚ)
            + (((50 : ℤ) * (((410 : ℕ) : ℤ) - ((205 : ℕ) : ℤ)) : ℤ) : ℚ) / 200))) ∧
    pulselen sampleConfig (-128) ≤ pulselen sampleConfig 127 :=
  ⟨(Servo_Set_Throttle_linear_monotone sampleConfig (by decide) (by decide) (by decide)
      (by decide)).2.1 50 (by decide) (by decide),
    (Servo_Set_Throttle_linear_monotone sampleConfig (by decide) (by decide) (by decide)
      (by decide)).2.2 (-128) 127 (by decide)⟩

/-! ## Channel write: high bytes and register frame -/

/-- Whatever the bus answers, the calls of a channel write are the first `n` of
the four byte writes, for some `n` between 1 and 4. -/
theorem Set_PWM_trace_take (cfg : Config) (hi2c : I2C_HandleTypeDef) (Channel On Off : Nat) :
    ∃ n, 1 ≤ n ∧ n ≤ 4 ∧
      (PCA9685_Set_PWM cfg hi2c Channel On Off).2.trace =
        hi2c.trace ++ List.take n
          [ Event.memWrite cfg.PCA9685_ADDRESS
              ((cfg.PCA9685_REG_LED0_ON_L + 4 * Channel + 0) % 256) [min On 4095 &&& 0xFF],
            Event.memWrite cfg.PCA9685_ADDRESS
              ((cfg.PCA9685_REG_LED0_ON_L + 4 * Channel + 1) % 256) [min On 4095 >>> 8],
            Event.memWrite cfg.PCA9685_ADDRESS
              ((cfg.PCA9685_REG_LED0_ON_L + 4 * Channel + 2) % 256) [min Off 4095 &&& 0xFF],
            Event.memWrite cfg.PCA9685_ADDRESS
              ((cfg.PCA9685_REG_LED0_ON_L + 4 * Channel + 3) % 256) [min Off 4095 >>> 8] ] := by
  by_cases hok : ∀ i, i < 4 → hi2c.status (hi2c.calls + i) = HAL_OK
  · refine ⟨4, by omega, by omega, ?_⟩
    rw [Set_PWM_all_ok cfg hi2c Channel On Off hok]
    rfl
  · obtain ⟨j, hj, hpre, hfail⟩ := first_failure_exists hi2c 4 hok
    refine ⟨j + 1, by omega, by omega, ?_⟩
    rw [Set_PWM_first_failure cfg hi2c Channel On Off j hj hpre hfail]

/-- The high byte of a count clamped to 4095 has its upper four bits clear. -/
theorem shr8_le (n : Nat) : min n 4095 >>> 8 ≤ 0x0F := by
  rw [Nat.shiftRight_eq_div_pow]
  omega

/-- Whatever the bus answers, every byte a channel write stores into its ON-high
or OFF-high register is at most `0x0F`. -/
theorem Set_PWM_high_bytes (cfg : Config) (hi2c : I2C_HandleTypeDef) (Channel On Off : Nat)
    (k : Nat) (hk : k = 1 ∨ k = 3) (data : List Nat)
    (hdata : data ∈ writesTo ((cfg.PCA9685_REG_LED0_ON_L + 4 * Channel + k) % 256)
      (List.drop hi2c.trace.length (PCA9685_Set_PWM cfg hi2c Channel On Off).2.trace)) :
    ∃ v, data = [v] ∧ v ≤ 0x0F := by
  obtain ⟨n, hn1, hn4, htr⟩ := Set_PWM_trace_take cfg hi2c Channel On Off
  rw [htr, List.drop_left] at hdata
  have h01 : ¬ (cfg.PCA9685_REG_LED0_ON_L + 4 * Channel + 0) % 256
      = (cfg.PCA9685_REG_LED0_ON_L + 4 * Channel + 1) % 256 := by omega
  have h21 : ¬ (cfg.PCA9685_REG_LED0_ON_L + 4 * Channel + 2) % 256
      = (cfg.PCA9685_REG_LED0_ON_L + 4 * Channel + 1) % 256 := by omega
  have h31 : ¬ (cfg.PCA9685_REG_LED0_ON_L + 4 * Channel + 3) % 256
      = (cfg.PCA9685_REG_LED0_ON_L + 4 * Channel + 1) % 256 := by omega
  have h03 : ¬ (cfg.PCA9685_REG_LED0_ON_L + 4 * Channel + 0) % 256
      = (cfg.PCA9685_REG_LED0_ON_L + 4 * Channel + 3) % 256 := by omega
  have h13 : ¬ (cfg.PCA9685_REG_LED0_ON_L + 4 * Channel + 1) % 256
      = (cfg.PCA9685_REG_LED0_ON_L + 4 * Channel + 3) % 256 := by omega
  have h23 : ¬ (cfg.PCA9685_REG_LED0_ON_L + 4 * Channel + 2) % 256
      = (cfg.PCA9685_REG_LED0_ON_L + 4 * Channel + 3) % 256 := by omega
  rcases hk with rfl | rfl
  · interval_cases n <;>
      simp only [List.take, writesTo, h01, h21, h31, if_true, if_false, List.mem_singleton,
        List.not_mem_nil] at hdata
    · exact ⟨_, hdata, shr8_le On⟩
    · exact ⟨_, hdata, shr8_le On⟩
    · exact ⟨_, hdata, shr8_le On⟩
  · interval_cases n <;>
      simp only [List.take, writesTo, h03, h13, h23, if_true, if_false, List.mem_singleton,
        List.not_mem_nil] at hdata
    · exact ⟨_, hdata, shr8_le Off⟩

/-- Claim C18. For every channel, every `On`, `Off` and every bus script, each byte
that `PCA9685_Set_PWM` writes to its ON-high register (`k = 1`) or OFF-high
register (`k = 3`) is at most `0x0F`, so bits 4..7 are written as 0; the same
holds for every write caused by `Servo_Set_Throttle`. -/
theorem PCA9685_Set_PWM_full_bits_clear (cfg : Config) (hi2c : I2C_HandleTypeDef)
    (Channel On Off : Nat) (Throttle : ℤ) :
    (∀ k, k = 1 ∨ k = 3 →
      ∀ data, data ∈ writesTo ((cfg.PCA9685_REG_LED0_ON_L + 4 * Channel + k) % 256)
          (List.drop hi2c.trace.length (PCA9685_Set_PWM cfg hi2c Channel On Off).2.trace) →
        ∃ v, data = [v] ∧ v ≤ 0x0F) ∧
    (∀ k, k = 1 ∨ k = 3 →
      ∀ data, data ∈ writesTo ((cfg.PCA9685_REG_LED0_ON_L + 4 * Channel + k) % 256)
          (List.drop hi2c.trace.length (Servo_Set_Throttle cfg hi2c Channel Throttle).2.trace) →
        ∃ v, data = [v] ∧ v ≤ 0x0F) := by
  constructor
  · intro k hk data hdata
    exact Set_PWM_high_bytes cfg hi2c Channel On Off k hk data hdata
  · intro k hk data hdata
    rw [(Servo_Set_Throttle_call cfg hi2c Channel Throttle).1] at hdata
    exact Set_PWM_high_bytes cfg hi2c Channel 0 _ k hk data hdata

/-- Witness for C18: `On = Off = 0xFFFF` on channel 0; the ON-high register
`0x07` receives `0x0F`. -/
theorem PCA9685_Set_PWM_full_bits_clear_witness :
    ∃ v, [0x0F] = [v] ∧ v ≤ 0x0F :=
  (PCA9685_Set_PWM_full_bits_clear sampleConfig (okBus 0) 0 0xFFFF 0xFFFF 100).1 1
    (Or.inl rfl) [0x0F] (by decide)

/-- A register outside the block `reg .. reg + |data| - 1` keeps its content when
`data` is stored at `reg`. -/
theorem storeBytes_frame (data : List Nat) (rf : Nat → Nat) (reg r : Nat)
    (h : r ∉ (List.range data.length).map (reg + ·)) :
    storeBytes rf reg data r = rf r := by
  induction data generalizing rf reg with
  | nil => rfl
  | cons b bs ih =>
    have hr : r ≠ reg := by
      intro e
      apply h
      simp only [List.mem_map, List.mem_range, List.length_cons]
      exact ⟨0, by omega, by omega⟩
    have hrest : r ∉ (List.range bs.length).map (reg + 1 + ·) := by
      intro hm
      apply h
      simp only [List.mem_map, List.mem_range, List.length_cons] at hm ⊢
      obtain ⟨i, hi, e⟩ := hm
      exact ⟨i + 1, by omega, by omega⟩
    simp only [storeBytes]
    rw [ih (Function.update rf reg b) (reg + 1) hrest, Function.update_noteq hr]

/-- A register that no write of the trace addresses keeps its content. -/
theorem replay_frame (tr : List Event) (rf : Nat → Nat) (r : Nat) (h : r ∉ regsOf tr) :
    replay rf tr r = rf r := by
  induction tr generalizing rf with
  | nil => rfl
  | cons e es ih =>
    cases e with
    | memWrite dev reg data =>
      simp only [regsOf, List.mem_append, not_or] at h
      simp only [replay]
      rw [ih _ h.2, storeBytes_frame data rf reg r h.1]
    | isDeviceReady dev trials timeout =>
      simp only [regsOf] at h
      simp only [replay]
      exact ih rf h
    | memRead dev reg size =>
      simp only [regsOf] at h
      simp only [replay]
      exact ih rf h
    | delay ms =>
      simp only [regsOf] at h
      simp only [replay]
      exact ih rf h

/-- Whatever the bus answers, the registers a channel write addresses lie in the
four-byte block of the channel (addresses reduced modulo 256). -/
theorem Set_PWM_regs (cfg : Config) (hi2c : I2C_HandleTypeDef) (Channel On Off : Nat)
    (r : Nat)
    (hr : r ∈ regsOf
      (List.drop hi2c.trace.length (PCA9685_Set_PWM cfg hi2c Channel On Off).2.trace)) :
    ∃ k, k < 4 ∧ r = (cfg.PCA9685_REG_LED0_ON_L + 4 * Channel + k) % 256 := by
  obtain ⟨n, hn1, hn4, htr⟩ := Set_PWM_trace_take cfg hi2c Channel On Off
  rw [htr, List.drop_left] at hr
  interval_cases n <;> simp [regsOf] at hr
  · exact ⟨0, by omega, by omega⟩
  · rcases hr with h | h
    · exact ⟨0, by omega, by omega⟩
    · exact ⟨1, by omega, by omega⟩
  · rcases hr with h | h | h
    · exact ⟨0, by omega, by omega⟩
    · exact ⟨1, by omega, by omega⟩
    · exact ⟨2, by omega, by omega⟩
  · rcases hr with h | h | h | h
    · exact ⟨0, by omega, by omega⟩
    · exact ⟨1, by omega, by omega⟩
    · exact ⟨2, by omega, by omega⟩
    · exact ⟨3, by omega, by omega⟩

/-- Claim C19. With `LED0_ON_L = 0x06` and a channel in 0..15: a successful channel
write addresses exactly the registers `0x06 + 4 * Channel + 0..3`, without
wrap-around; whatever the bus answers, every register addressed lies in that
block, in `[0x06, 0x45]`, and is neither `0x00` (MODE1) nor `0xFE` (PRESCALE);
the registers addressed for two distinct channels are disjoint; and every
register outside the block, so MODE1, PRESCALE and the registers of every other
channel, keeps its content. -/
theorem PCA9685_Set_PWM_register_frame (cfg : Config) (hi2c : I2C_HandleTypeDef)
    (Channel On Off : Nat) (hL : cfg.PCA9685_REG_LED0_ON_L = 0x06) (hch : Channel ≤ 15) :
    ((∀ i, i < 4 → hi2c.status (hi2c.calls + i) = HAL_OK) →
      regsOf (List.drop hi2c.trace.length (PCA9685_Set_PWM cfg hi2c Channel On Off).2.trace)
        = [0x06 + 4 * Channel, 0x06 + 4 * Channel + 1, 0x06 + 4 * Channel + 2,
            0x06 + 4 * Channel + 3]) ∧
    (∀ r, r ∈ regsOf
        (List.drop hi2c.trace.length (PCA9685_Set_PWM cfg hi2c Channel On Off).2.trace) →
      (0x06 + 4 * Channel ≤ r ∧ r ≤ 0x06 + 4 * Channel + 3) ∧
      (0x06 ≤ r ∧ r ≤ 0x45) ∧ r ≠ 0x00 ∧ r ≠ 0xFE) ∧
    (∀ (hi2c2 : I2C_HandleTypeDef) (Channel2 On2 Off2 : Nat),
      Channel2 ≤ 15 → Channel2 ≠ Channel →
      ∀ r r2,
        r ∈ regsOf
          (List.drop hi2c.trace.length (PCA9685_Set_PWM cfg hi2c Channel On Off).2.trace) →
        r2 ∈ regsOf
          (List.drop hi2c2.trace.length
            (PCA9685_Set_PWM cfg hi2c2 Channel2 On2 Off2).2.trace) →
        r ≠ r2) ∧
    (∀ (rf : Nat → Nat) (r : Nat),
      (r < 0x06 + 4 * Channel ∨ 0x06 + 4 * Channel + 3 < r) →
      replay rf
        (List.drop hi2c.trace.length (PCA9685_Set_PWM cfg hi2c Channel On Off).2.trace) r
        = rf r) := by
  have hblock : ∀ (h : I2C_HandleTypeDef) (c a b r : Nat), c ≤ 15 →
      r ∈ regsOf (List.drop h.trace.length (PCA9685_Set_PWM cfg h c a b).2.trace) →
      0x06 + 4 * c ≤ r ∧ r ≤ 0x06 + 4 * c + 3 := by
    intro h c a b r hc hr
    obtain ⟨k, hk, e⟩ := Set_PWM_regs cfg h c a b r hr
    rw [hL] at e
    omega
  refine ⟨?_, ?_, ?_, ?_⟩
  · intro hok
    rw [Set_PWM_all_ok cfg hi2c Channel On Off hok, hL]
    rw [Nat.mod_eq_of_lt (by omega : 0x06 + 4 * Channel + 0 < 256),
      Nat.mod_eq_of_lt (by omega : 0x06 + 4 * Channel + 1 < 256),
      Nat.mod_eq_of_lt (by omega : 0x06 + 4 * Channel + 2 < 256),
      Nat.mod_eq_of_lt (by omega : 0x06 + 4 * Channel + 3 < 256)]
    simp [regsOf]
    rfl
  · intro r hr
    have hb := hblock hi2c Channel On Off r hch hr
    omega
  · intro hi2c2 Channel2 On2 Off2 hch2 hne r r2 hr hr2
    have hb := hblock hi2c Channel On Off r hch hr
    have hb2 := hblock hi2c2 Channel2 On2 Off2 r2 hch2 hr2
    omega
  · intro rf r hout
    apply replay_frame
    intro hr
    have hb := hblock hi2c Channel On Off r hch hr
    omega

/-- Witness for C19: channel 15, whose block is `0x42 .. 0x45`. -/
theorem PCA9685_Set_PWM_register_frame_witness :
    regsOf (List.drop 0 (PCA9685_Set_PWM sampleConfig (okBus 0) 15 100 2048).2.trace)
      = [0x06 + 4 * 15, 0x06 + 4 * 15 + 1, 0x06 + 4 * 15 + 2, 0x06 + 4 * 15 + 3] :=
  (PCA9685_Set_PWM_register_frame sampleConfig (okBus 0) 15 100 2048 rfl (by decide)).1
    (fun _ _ => rfl)

end StmProgram

namespace Stm32f303

/-! ## The two channel-write strategies -/

/-- A count of at most 4095 has its low byte as `% 256` and its high byte as
`>>> 8`, both already bytes. -/
theorem count_bytes (n : Nat) (h : n ≤ 4095) :
    n % 256 = n &&& 0xFF ∧ (n >>> 8) % 256 = n >>> 8 := by
  have e : (0xFF : Nat) = 2 ^ 8 - 1 := by norm_num
  constructor
  · rw [e, Nat.and_pow_two_sub_one_eq_mod]
  · rw [Nat.shiftRight_eq_div_pow]
    omega

/-- Counterexample to C16: for `on = 5000` the variant transmits the bytes `0x88`,
`0x13` of the value as given, while `PCA9685_Set_PWM` clamps to 4095 and writes
`0xFF`, `0x0F`. -/
theorem PCA9685_PWM_no_clamp :
    (PCA9685_PWM ⟨[]⟩ 0x80 0 5000 0).trace
      = [Event.masterTransmit 0x80 [0x06, 0x88, 0x13, 0x00, 0x00]] ∧
    (StmProgram.PCA9685_Set_PWM StmProgram.sampleConfig (StmProgram.okBus 0) 0 5000 0).2.trace
      = [ StmProgram.Event.memWrite 0x80 0x06 [0xFF], StmProgram.Event.memWrite 0x80 0x07 [0x0F],
          StmProgram.Event.memWrite 0x80 0x08 [0x00], StmProgram.Event.memWrite 0x80 0x09 [0x00] ] ∧
    ¬ ∃ r b0 b1 b2 b3,
        (PCA9685_PWM ⟨[]⟩ 0x80 0 5000 0).trace = [Event.masterTransmit 0x80 [r, b0, b1, b2, b3]] ∧
        (StmProgram.PCA9685_Set_PWM StmProgram.sampleConfig (StmProgram.okBus 0) 0 5000 0).2.trace
          = [ StmProgram.Event.memWrite 0x80 r [b0], StmProgram.Event.memWrite 0x80 (r + 1) [b1],
              StmProgram.Event.memWrite 0x80 (r + 2) [b2],
              StmProgram.Event.memWrite 0x80 (r + 3) [b3] ] := by
  have h1 : (PCA9685_PWM ⟨[]⟩ 0x80 0 5000 0).trace
      = [Event.masterTransmit 0x80 [0x06, 0x88, 0x13, 0x00, 0x00]] := by decide
  have h2 : (StmProgram.PCA9685_Set_PWM StmProgram.sampleConfig (StmProgram.okBus 0)
        0 5000 0).2.trace
      = [ StmProgram.Event.memWrite 0x80 0x06 [0xFF], StmProgram.Event.memWrite 0x80 0x07 [0x0F],
          StmProgram.Event.memWrite 0x80 0x08 [0x00],
          StmProgram.Event.memWrite 0x80 0x09 [0x00] ] := by decide
  refine ⟨h1, h2, ?_⟩
  rintro ⟨r, b0, b1, b2, b3, e1, e2⟩
  rw [h1] at e1
  rw [h2] at e2
  simp at e1 e2
  omega

/-- Claim C16, amended. With `LED0_ON_L = 0x06`, for a channel in 0..15 and
`on`, `off` in 0..4095, the variant transmits the one buffer `[r, b0, b1, b2, b3]`
where `r = 0x06 + 4 * channel` is the first register and `b0..b3` are the bytes
that a successful `PCA9685_Set_PWM` writes, in order, to `r, r + 1, r + 2, r + 3`
for the same arguments; under register auto-increment both leave the same
register contents. -/
theorem PCA9685_PWM_matches_Set_PWM (cfg : StmProgram.Config)
    (hi2c : StmProgram.I2C_HandleTypeDef) (bus : I2C_HandleTypeDef)
    (address Channel On Off : Nat)
    (hL : cfg.PCA9685_REG_LED0_ON_L = 0x06) (hch : Channel ≤ 15)
    (hon : On ≤ 4095) (hoff : Off ≤ 4095)
    (hok : ∀ i, i < 4 → hi2c.status (hi2c.calls + i) = StmProgram.HAL_StatusTypeDef.HAL_OK) :
    (PCA9685_PWM bus address Channel On Off).trace =
      bus.trace ++
        [Event.masterTransmit address
          [0x06 + 4 * Channel, On &&& 0xFF, On >>> 8, Off &&& 0xFF, Off >>> 8]] ∧
    (StmProgram.PCA9685_Set_PWM cfg hi2c Channel On Off).2.trace =
      hi2c.trace ++
        [ StmProgram.Event.memWrite cfg.PCA9685_ADDRESS (0x06 + 4 * Channel) [On &&& 0xFF],
          StmProgram.Event.memWrite cfg.PCA9685_ADDRESS (0x06 + 4 * Channel + 1) [On >>> 8],
          StmProgram.Event.memWrite cfg.PCA9685_ADDRESS (0x06 + 4 * Channel + 2) [Off &&& 0xFF],
          StmProgram.Event.memWrite cfg.PCA9685_ADDRESS (0x06 + 4 * Channel + 3) [Off >>> 8] ] ∧
    (∀ rf : Nat → Nat,
      replay rf (List.drop bus.trace.length (PCA9685_PWM bus address Channel On Off).trace) =
        StmProgram.replay rf (List.drop hi2c.trace.length
          (StmProgram.PCA9685_Set_PWM cfg hi2c Channel On Off).2.trace)) := by
  have h1 : (PCA9685_PWM bus address Channel On Off).trace =
      bus.trace ++
        [Event.masterTransmit address
          [0x06 + 4 * Channel, On &&& 0xFF, On >>> 8, Off &&& 0xFF, Off >>> 8]] := by
    simp only [PCA9685_PWM, HAL_I2C_Master_Transmit, (count_bytes On hon).1,
      (count_bytes On hon).2, (count_bytes Off hoff).1, (count_bytes Off hoff).2]
    rw [Nat.mod_eq_of_lt (by omega : 0x06 + 4 * Channel < 256)]
  have h2 : (StmProgram.PCA9685_Set_PWM cfg hi2c Channel On Off).2.trace =
      hi2c.trace ++
        [ StmProgram.Event.memWrite cfg.PCA9685_ADDRESS (0x06 + 4 * Channel) [On &&& 0xFF],
          StmProgram.Event.memWrite cfg.PCA9685_ADDRESS (0x06 + 4 * Channel + 1) [On >>> 8],
          StmProgram.Event.memWrite cfg.PCA9685_ADDRESS (0x06 + 4 * Channel + 2) [Off &&& 0xFF],
          StmProgram.Event.memWrite cfg.PCA9685_ADDRESS (0x06 + 4 * Channel + 3)
            [Off >>> 8] ] := by
    rw [StmProgram.Set_PWM_all_ok cfg hi2c Channel On Off hok, hL,
      Nat.mod_eq_of_lt (by omega : 0x06 + 4 * Channel + 0 < 256),
      Nat.mod_eq_of_lt (by omega : 0x06 + 4 * Channel + 1 < 256),
      Nat.mod_eq_of_lt (by omega : 0x06 + 4 * Channel + 2 < 256),
      Nat.mod_eq_of_lt (by omega : 0x06 + 4 * Channel + 3 < 256),
      Nat.min_eq_left hon, Nat.min_eq_left hoff]
    rfl
  refine ⟨h1, h2, ?_⟩
  intro rf
  rw [h1, h2, List.drop_left, List.drop_left]
  rfl

/-- Witness for C16 (amended): channel 3, `on = 100`, `off = 2048`. -/
theorem PCA9685_PWM_matches_Set_PWM_witness :
    (PCA9685_PWM ⟨[]⟩ 0x80 3 100 2048).trace =
      [Event.masterTransmit 0x80 [18, 100, 0, 0, 8]] ∧
    (StmProgram.PCA9685_Set_PWM StmProgram.sampleConfig (StmProgram.okBus 0) 3 100 2048).2.trace =
      [ StmProgram.Event.memWrite 0x80 18 [100], StmProgram.Event.memWrite 0x80 19 [0],
        StmProgram.Event.memWrite 0x80 20 [0], StmProgram.Event.memWrite 0x80 21 [8] ] ∧
    (∀ rf : Nat → Nat,
      replay rf (List.drop 0 (PCA9685_PWM ⟨[]⟩ 0x80 3 100 2048).trace) =
        StmProgram.replay rf (List.drop 0
          (StmProgram.PCA9685_Set_PWM StmProgram.sampleConfig (StmProgram.okBus 0)
            3 100 2048).2.trace)) :=
  PCA9685_PWM_matches_Set_PWM StmProgram.sampleConfig (StmProgram.okBus 0) ⟨[]⟩ 0x80 3 100 2048
    rfl (by decide) (by decide) (by decide) (fun _ _ => rfl)

/-! ## Initialisation of the variant -/

/-- The calls of the variant's `PCA9685_Init`, for any macro values: the buffer
keeps `PCA9685_MODE1` as its first byte in all four transfers. -/
theorem PCA9685_Init_trace (cfg : Config) (hi2c : I2C_HandleTypeDef) (address : Nat) :
    (PCA9685_Init cfg hi2c address).trace =
      hi2c.trace ++
        [ Event.masterTransmitAt address cfg.PCA9685_MODE1 1,
          Event.masterTransmit address [cfg.PCA9685_MODE1 % 256, 0x10],
          Event.masterTransmit address [cfg.PCA9685_MODE1 % 256, cfg.PCA9685_PRESCALE % 256],
          Event.masterTransmit address [cfg.PCA9685_MODE1 % 256, 0x00],
          Event.delay 5,
          Event.masterTransmit address [cfg.PCA9685_MODE1 % 256, 0xA1] ] := by
  simp [PCA9685_Init, HAL_I2C_Master_Transmit, HAL_I2C_Master_Transmit_at, HAL_Delay]

/-- Claim C17 evaluated on the code, with `MODE1 = 0x00` and `PRESCALE = 0xFE`:
the second two-byte transfer is `[0x00, 0xFE]`.  Its register byte is the
`MODE1` address, not the `PRESCALE` address, and the `PRESCALE` address is sent
as the value; no transfer of the call starts with `0xFE`. -/
theorem PCA9685_Init_second_transfer :
    (PCA9685_Init headerConfig ⟨[]⟩ 0x80).trace =
      [ Event.masterTransmitAt 0x80 0x00 1,
        Event.masterTransmit 0x80 [0x00, 0x10],
        Event.masterTransmit 0x80 [0x00, 0xFE],
        Event.masterTransmit 0x80 [0x00, 0x00],
        Event.delay 5,
        Event.masterTransmit 0x80 [0x00, 0xA1] ] ∧
    (∀ dev v, Event.masterTransmit dev [0xFE, v]
      ∉ (PCA9685_Init headerConfig ⟨[]⟩ 0x80).trace) := by
  have h : (PCA9685_Init headerConfig ⟨[]⟩ 0x80).trace =
      [ Event.masterTransmitAt 0x80 0x00 1,
        Event.masterTransmit 0x80 [0x00, 0x10],
        Event.masterTransmit 0x80 [0x00, 0xFE],
        Event.masterTransmit 0x80 [0x00, 0x00],
        Event.delay 5,
        Event.masterTransmit 0x80 [0x00, 0xA1] ] := by decide
  refine ⟨h, ?_⟩
  intro dev v
  rw [h]
  simp

end Stm32f303
